import Mathlib

/-!
# Verification of the midish4esp32 sequencing core (src/frame.c)

This file gives a shallow embedding of the track / seqptr editing engine of
`src/frame.c` and proves (or refutes) the specification claims about it.

The repository ships only `frame.c` for the sequencing core; its collaborators
(`ev.c`, `state.c`, `track.c`, `default.h`) are not in the sources.  Every
definition whose doc comment starts with `Modelled from the spec:` is a model
of such a missing collaborator, written from the specification text; all other
definitions are direct translations of the code in `src/frame.c`.

Conventions of the embedding:
* C `unsigned` becomes `Nat`; subtraction sites are guarded in the source by
  the `delta <= pos->delta` cursor invariant, under which `Nat` truncated
  subtraction agrees with the C arithmetic.  `~0U` becomes the literal
  `UINT_MAX`.
* The intrusive doubly linked cell list of a track becomes a `List Cell`
  whose final cell is the end-of-track sentinel (`ev.cmd == EV_NULL`, its
  `delta` holding the trailing blank tics).  A `seqptr` becomes a zipper:
  the cells strictly before the cursor (most recent first) and the cells
  from the cursor on.  Cells carry an allocation id so that the
  `state.pos` back pointer of the C code can be represented.
* C in-place mutation of a `struct state *` inside a state list becomes
  `statelist_replace` (write the updated record back into the list).
* The unbounded `for (;;)` loops become fuel-indexed recursions; each
  wrapper passes a fuel that is proved (or, for the evaluation theorems,
  computed) to be sufficient.
* `dbg_puts`/`ev_dbg` logging is dropped except where a claim is about the
  logged data; `dbg_panic` sites are modelled by an explicit flag.
-/

set_option maxHeartbeats 1000000

namespace Frame

/-- Event commands of the sequencing core.  `Modelled from the spec:`
`ev.h`/`ev.c` are not in src/; the spec lists NoteOn, NoteOff,
KeyAfterTouch, Controller, PitchBend, Program, ChannelAfterTouch, Tempo,
TimeSig and the sentinel NULL (14-bit controller pairs, NRPN and RPN are
configuration dependent and are not needed by any claim). -/
inductive EvCmd where
  | evnull
  | non
  | noff
  | kat
  | ctl
  | bend
  | cat
  | pc
  | tempo
  | timesig
  deriving DecidableEq, Repr

/-- A MIDI event.  `Modelled from the spec:` a command, a device+channel
word and two payload words (pitch/velocity, controller number/value,
beats/tics of a time signature; a tempo keeps its usec24 value in `b0`). -/
structure Ev where
  cmd : EvCmd
  ch : Nat := 0
  b0 : Nat := 0
  b1 : Nat := 0
  deriving DecidableEq, Repr

def EV_PHASE_FIRST : Nat := 1
def EV_PHASE_NEXT : Nat := 2
def EV_PHASE_LAST : Nat := 4

def UINT_MAX : Nat := 4294967295

/-- `Modelled from the spec:` default time signature and tempo used when no
meta event is installed; `default.h` is not in src/ and the spec does not
fix the numeric values, so representative constants are used. -/
def DEFAULT_BPM : Nat := 4

/-- `Modelled from the spec:` see `DEFAULT_BPM`. -/
def DEFAULT_TPB : Nat := 24

/-- `Modelled from the spec:` see `DEFAULT_BPM`. -/
def DEFAULT_USEC24 : Nat := 500000

/-- `Modelled from the spec:` phase of an event as a function of kind and
value: note-ons open a frame unless velocity is 0 (which collapses to a
note-off, LAST); note-offs close; key aftertouch continues; controllers,
pitch bend, channel aftertouch, program, tempo and time signature are
one-shot FIRST|LAST frames (no 14-bit controller pair is configured). -/
def ev_phase (e : Ev) : Nat :=
  match e.cmd with
  | .non => if e.b1 == 0 then EV_PHASE_LAST else EV_PHASE_FIRST
  | .noff => EV_PHASE_LAST
  | .kat => EV_PHASE_NEXT
  | .ctl => EV_PHASE_FIRST ||| EV_PHASE_LAST
  | .bend => EV_PHASE_FIRST ||| EV_PHASE_LAST
  | .cat => EV_PHASE_FIRST ||| EV_PHASE_LAST
  | .pc => EV_PHASE_FIRST ||| EV_PHASE_LAST
  | .tempo => EV_PHASE_FIRST ||| EV_PHASE_LAST
  | .timesig => EV_PHASE_FIRST ||| EV_PHASE_LAST
  | .evnull => 0

/-- `EV_ISNOTE` of `ev.h`: NoteOn / NoteOff / KeyAfterTouch. -/
def EV_ISNOTE (e : Ev) : Bool :=
  e.cmd == .non || e.cmd == .noff || e.cmd == .kat

/-- `Modelled from the spec:` the frame a non-NULL event belongs to, as a
key: its kind class (notes NoteOn/NoteOff/KeyAfterTouch share one frame),
its channel, and its frame selector (notes: pitch; controllers:
controller number; bend/program/chanaft: none beyond the channel;
tempo/timesig: singleton per track). -/
def ev_frameKey (e : Ev) : Option (Nat × Nat × Nat) :=
  match e.cmd with
  | .non => some (0, e.ch, e.b0)
  | .noff => some (0, e.ch, e.b0)
  | .kat => some (0, e.ch, e.b0)
  | .ctl => some (1, e.ch, e.b0)
  | .bend => some (2, e.ch, 0)
  | .cat => some (3, e.ch, 0)
  | .pc => some (4, e.ch, 0)
  | .tempo => some (5, 0, 0)
  | .timesig => some (6, 0, 0)
  | .evnull => none

/-- `Modelled from the spec:` frame identity — two events belong to the same
frame iff their frame keys agree. -/
def ev_sameFrame (a b : Ev) : Bool :=
  match ev_frameKey a, ev_frameKey b with
  | some ka, some kb => ka == kb
  | _, _ => false

/-- A frame state.  `Modelled from the spec:` last event seen, its phase,
the NEW/CHANGED/BOGUS/NESTED flags, the user scratch word `tag`, and the
frame-start position (cell id) and absolute tic. -/
structure State where
  ev : Ev
  phase : Nat
  fNew : Bool := false
  fChanged : Bool := false
  fBogus : Bool := false
  fNested : Bool := false
  tag : Nat := 0
  pos : Nat := 0
  tic : Nat := 0
  deriving DecidableEq, Repr

/-- `state_eq` of `state.c`: deep value equality of a state's current event
with an event.  `Modelled from the spec:` "tests deep equality including
payload". -/
def state_eq (st : State) (e : Ev) : Bool := st.ev == e

/-- `state_match` of `state.c`: frame identity test. -/
def state_match (st : State) (e : Ev) : Bool := ev_sameFrame st.ev e

/-- `statelist_lookup`: find the live state of the frame `e` belongs to.
`Modelled from the spec:` dictionary lookup by frame identity. -/
def statelist_lookup (l : List State) (e : Ev) : Option State :=
  l.find? (fun st => ev_sameFrame st.ev e)

/-- `Modelled from the spec:` the update of an existing state by a new event
of the same frame: store the event and its phase, set NEW, set CHANGED if
the payload differs from the previous event, set NESTED if a FIRST arrives
while the frame is still live, set BOGUS if a non-FIRST arrives after the
frame terminated; a FIRST arriving after the frame terminated restarts it
with clean flags.  The scratch `tag` is never touched by updates. -/
def state_update1 (st : State) (e : Ev) : State :=
  let p := ev_phase e
  let changed := st.ev != e
  if (p &&& EV_PHASE_FIRST) != 0 then
    if (st.phase &&& EV_PHASE_LAST) != 0 then
      { st with
        ev := e, phase := p, fNew := true, fChanged := changed,
        fBogus := false, fNested := false }
    else
      { st with
        ev := e, phase := p, fNew := true, fChanged := changed,
        fNested := true }
  else
    if (st.phase &&& EV_PHASE_LAST) != 0 then
      { st with
        ev := e, phase := p, fNew := true, fChanged := changed,
        fBogus := true }
    else
      { st with ev := e, phase := p, fNew := true, fChanged := changed }

/-- `statelist_update`: look the frame up; update it in place if present,
else allocate a fresh state (BOGUS when the event does not open a frame).
Returns the state together with the new list.  `Modelled from the spec:`
§4.2 of the specification. -/
def statelist_update : List State → Ev → State × List State
  | [], e =>
    let p := ev_phase e
    let st : State := { ev := e, phase := p, fNew := true,
                        fBogus := (p &&& EV_PHASE_FIRST) == 0 }
    (st, [st])
  | st :: rest, e =>
    if ev_sameFrame st.ev e then
      let st' := state_update1 st e
      (st', st' :: rest)
    else
      let r := statelist_update rest e
      (r.1, st :: r.2)

/-- Write an updated state record back into the list (the C code mutates the
state in place through the pointer returned by `statelist_update`). -/
def statelist_replace (l : List State) (st : State) : List State :=
  l.map (fun s => if ev_sameFrame s.ev st.ev then st else s)

/-- `statelist_outdate`: drop every state whose frame has terminated
(phase is exactly LAST — one-shot FIRST|LAST states persist, they carry
the current value of the frame) and was already observed (NEW not set);
clear NEW and CHANGED on the survivors.  `Modelled from the spec:` §4.2
("for each state, if phase==LAST and not NEW, remove it; clear
NEW/CHANGED on survivors"). -/
def statelist_outdate (l : List State) : List State :=
  (l.filter (fun st => !(st.phase == EV_PHASE_LAST && !st.fNew))).map
    (fun st => { st with fNew := false, fChanged := false })

/-- `statelist_rm`: remove the given state (frame identity is unique in a
list, so removal is by frame identity). -/
def statelist_rm (l : List State) (st : State) : List State :=
  l.filter (fun s => !(ev_sameFrame s.ev st.ev))

/-- `statelist_dup`: copy only the behavioural fields (event, phase,
BOGUS/NESTED); NEW, CHANGED, `tag`, `pos` and `tic` are not copied.
`Modelled from the spec:` §3 and §4.2. -/
def statelist_dup (l : List State) : List State :=
  l.map (fun st => { ev := st.ev, phase := st.phase,
                     fBogus := st.fBogus, fNested := st.fNested })

/-- `state_restore` of `state.c`.  `Modelled from the spec:` synthesise the
events that reinstate a non-note frame (re-emit its current value); note
frames cannot be restored and produce no event. -/
def state_restore (st : State) : List Ev :=
  if EV_ISNOTE st.ev then [] else [st.ev]

/-- One cell of a track: blank tics before the event, the event, and an
allocation id standing for the C cell address. -/
structure Cell where
  id : Nat := 0
  delta : Nat
  ev : Ev
  deriving DecidableEq, Repr

/-- A track: the cell list (the last cell is the end-of-track sentinel,
`ev.cmd == EV_NULL`, whose `delta` holds the trailing blank tics), plus
the allocation counter for fresh cell ids. -/
structure Track where
  cells : List Cell
  nextId : Nat := 0
  deriving DecidableEq, Repr

/-- The observable content of a track: its sequence of (delta, event)
cells, sentinel included. -/
def track_data (t : Track) : List (Nat × Ev) :=
  t.cells.map (fun c => (c.delta, c.ev))

/-- `track_init`: a fresh track holds only the sentinel with no trailing
blank.  `Modelled from the spec:` `track.c` is not in src/. -/
def track_init : Track :=
  { cells := [{ id := 0, delta := 0, ev := { cmd := .evnull } }], nextId := 1 }

/-- `track_chomp`: remove the trailing blank tics by normalising the
sentinel's delta to 0.  `Modelled from the spec:` §4.3 ("`chomp` removes
trailing blank tics past the last event by normalising the sentinel's
`delta`"); `track.c` is not in src/. -/
def chompCells : List Cell → List Cell
  | [] => []
  | [c] => [{ c with delta := 0 }]
  | c :: c2 :: rest => c :: chompCells (c2 :: rest)

/-- See `chompCells`. -/
def track_chomp (t : Track) : Track :=
  { t with cells := chompCells t.cells }

/-- A cursor (`struct seqptr`): the cells strictly before the cursor (most
recent first), the cells from the cursor position on, the tics elapsed
inside the first future cell, the absolute tic, the cursor's state list
and the cell allocation counter. -/
structure SeqPtr where
  past : List Cell
  future : List Cell
  delta : Nat
  tic : Nat
  statelist : List State
  nextId : Nat
  deriving DecidableEq, Repr

/-- `sp->pos->delta`. -/
def SeqPtr.posdelta (sp : SeqPtr) : Nat :=
  match sp.future with
  | c :: _ => c.delta
  | [] => 0

/-- `sp->pos->ev`. -/
def SeqPtr.posev (sp : SeqPtr) : Ev :=
  match sp.future with
  | c :: _ => c.ev
  | [] => { cmd := .evnull }

/-- `seqptr_init`: place the cursor at the beginning of the track with an
empty state list. -/
def seqptr_init (t : Track) : SeqPtr :=
  { past := [], future := t.cells, delta := 0, tic := 0,
    statelist := [], nextId := t.nextId }

/-- Rebuild the track a cursor is standing in (the C code mutates the track
in place through the cursor). -/
def seqptr_track (sp : SeqPtr) : Track :=
  { cells := sp.past.reverse ++ sp.future, nextId := sp.nextId }

/-- `seqptr_eot`. -/
def seqptr_eot (sp : SeqPtr) : Bool :=
  sp.posev.cmd == .evnull && sp.delta == sp.posdelta

/-- `seqptr_evavail`. -/
def seqptr_evavail (sp : SeqPtr) : Bool :=
  sp.posdelta == sp.delta && sp.posev.cmd != .evnull

/-- `seqptr_evget`: if an event is available in the current tic, update the
state list with it, record the frame start position/tic on a FIRST phase,
advance the cursor past the cell and reset `delta`. -/
def seqptr_evget (sp : SeqPtr) : Option State × SeqPtr :=
  if sp.delta != sp.posdelta || sp.posev.cmd == .evnull then
    (none, sp)
  else
    match sp.future with
    | [] => (none, sp)
    | c :: rest =>
      let r := statelist_update sp.statelist c.ev
      let st := if (r.1.phase &&& EV_PHASE_FIRST) != 0 then
                  { r.1 with pos := c.id, tic := sp.tic }
                else r.1
      (some st,
       { sp with
         past := c :: sp.past, future := rest, delta := 0,
         statelist := statelist_replace r.2 st })

/-- `seqptr_evdel`: delete the next event, transferring its delta to the
following cell; the optional erase list is updated as if the event had
been read; the cursor's own state list and tic are untouched. -/
def seqptr_evdel (sp : SeqPtr) (slist : Option (List State)) :
    Option State × SeqPtr × Option (List State) :=
  if sp.delta != sp.posdelta || sp.posev.cmd == .evnull then
    (none, sp, slist)
  else
    match sp.future with
    | c :: next :: rest =>
      let r : Option State × Option (List State) :=
        match slist with
        | some l =>
          let u := statelist_update l c.ev
          (some u.1, some u.2)
        | none => (none, none)
      (r.1,
       { sp with future := { next with delta := next.delta + c.delta } :: rest },
       r.2)
    | _ => (none, sp, slist)

/-- `seqptr_evput`: splice a new cell carrying the event before the cursor
(absorbing `sp.delta` tics of the current cell's blank) and read it back
with `seqptr_evget`. -/
def seqptr_evput (sp : SeqPtr) (e : Ev) : Option State × SeqPtr :=
  let se : Cell := { id := sp.nextId, delta := sp.delta, ev := e }
  let future' :=
    match sp.future with
    | c :: rest => { c with delta := c.delta - sp.delta } :: rest
    | [] => []
  seqptr_evget { sp with nextId := sp.nextId + 1, future := se :: future' }

/-- `seqptr_ticskip`: move forward at most `max` tics, not beyond the next
event; outdate the cursor's state list when the cursor moved. -/
def seqptr_ticskip (sp : SeqPtr) (max : Nat) : Nat × SeqPtr :=
  let ntics := sp.posdelta - sp.delta
  let ntics := if ntics > max then max else ntics
  if ntics > 0 then
    (ntics,
     { sp with
       delta := sp.delta + ntics, tic := sp.tic + ntics,
       statelist := statelist_outdate sp.statelist })
  else
    (ntics, sp)

/-- `seqptr_ticdel`: measure like `seqptr_ticskip` but remove the tics from
the current cell's delta; the cursor's `delta` and `tic` do not move; the
optional erase list is outdated when `max > 0`. -/
def seqptr_ticdel (sp : SeqPtr) (max : Nat) (slist : Option (List State)) :
    Nat × SeqPtr × Option (List State) :=
  let ntics := sp.posdelta - sp.delta
  let ntics := if ntics > max then max else ntics
  let future' :=
    match sp.future with
    | c :: rest => { c with delta := c.delta - ntics } :: rest
    | [] => []
  let slist' :=
    match slist with
    | some l => some (if max > 0 then statelist_outdate l else l)
    | none => none
  (ntics, { sp with future := future' }, slist')

/-- `seqptr_ticput`: insert blank space at the cursor and advance over it;
outdate the cursor's state list. -/
def seqptr_ticput (sp : SeqPtr) (ntics : Nat) : SeqPtr :=
  if ntics > 0 then
    let future' :=
      match sp.future with
      | c :: rest => { c with delta := c.delta + ntics } :: rest
      | [] => []
    { sp with
      future := future', delta := sp.delta + ntics,
      tic := sp.tic + ntics, statelist := statelist_outdate sp.statelist }
  else
    sp

/-- The `while (seqptr_evget(sp)) ;` idiom, fuel-indexed. -/
def seqptr_evget_all : Nat → SeqPtr → SeqPtr
  | 0, sp => sp
  | fuel + 1, sp =>
    match seqptr_evget sp with
    | (none, sp') => sp'
    | (some _, sp') => seqptr_evget_all fuel sp'

/-- The loop body of `seqptr_skip`, fuel-indexed. -/
def seqptr_skip_go : Nat → SeqPtr → Nat → Nat × SeqPtr
  | 0, sp, ntics => (ntics, sp)
  | fuel + 1, sp, ntics =>
    if seqptr_eot sp || ntics == 0 then (ntics, sp)
    else
      let sp := seqptr_evget_all (sp.future.length + 1) sp
      let r := seqptr_ticskip sp ntics
      seqptr_skip_go fuel r.2 (ntics - r.1)

/-- `seqptr_skip`: move forward `ntics`, returning the tics that remained
when the end of the track was reached. -/
def seqptr_skip (sp : SeqPtr) (ntics : Nat) : Nat × SeqPtr :=
  seqptr_skip_go (sp.future.length + ntics + 1) sp ntics

/-- `seqptr_seek`: like `seqptr_skip`, filling any shortfall with blank. -/
def seqptr_seek (sp : SeqPtr) (ntics : Nat) : SeqPtr :=
  let r := seqptr_skip sp ntics
  if r.1 > 0 then seqptr_ticput r.2 r.1 else r.2

/-- Result of `seqptr_getsign`: the looked-up state and the values written
through the `bpm`/`tpb` out parameters. -/
structure SignInfo where
  st : Option State
  bpm : Nat
  tpb : Nat
  deriving DecidableEq, Repr

/-- `seqptr_getsign`: look the singleton TIMESIG frame up in the cursor's
state list; report defaults when absent. -/
def seqptr_getsign (sp : SeqPtr) : SignInfo :=
  let ev : Ev := { cmd := .timesig }
  let st := statelist_lookup sp.statelist ev
  { st := st
    bpm := match st with
           | none => DEFAULT_BPM
           | some s => s.ev.b0
    tpb := match st with
           | none => DEFAULT_TPB
           | some s => s.ev.b1 }

/-- Result of `seqptr_gettempo`. -/
structure TempoInfo where
  st : Option State
  usec24 : Nat
  deriving DecidableEq, Repr

/-- `seqptr_gettempo`: look the singleton TEMPO frame up in the cursor's
state list; report the default when absent. -/
def seqptr_gettempo (sp : SeqPtr) : TempoInfo :=
  let ev : Ev := { cmd := .tempo }
  let st := statelist_lookup sp.statelist ev
  { st := st
    usec24 := match st with
              | none => DEFAULT_USEC24
              | some s => s.ev.b0 }

/-- `seqptr_skipmeasure`: walk `meas` measures forward, reading the tics
per measure from the live time signature; on premature end-of-track
return the virtual number of tics remaining until the requested measure. -/
def seqptr_skipmeasure : SeqPtr → Nat → Nat × SeqPtr
  | sp, 0 => (0, sp)
  | sp, m + 1 =>
    let sp := seqptr_evget_all (sp.future.length + 1) sp
    let sg := seqptr_getsign sp
    let tics_per_meas := sg.bpm * sg.tpb
    let r := seqptr_skip sp tics_per_meas
    if r.1 > 0 then (m * tics_per_meas + r.1, r.2)
    else seqptr_skipmeasure r.2 m

/-- `track_findmeasure`: measure number to absolute tic. -/
def track_findmeasure (t : Track) (m : Nat) : Nat :=
  let sp := seqptr_init t
  let r := seqptr_skipmeasure sp m
  r.1 + r.2.tic

/-- The out parameters of `track_timeinfo`; `abs = none` models the `abs`
out parameter being left unwritten. -/
structure TimeInfo where
  abs : Option Nat
  usec24 : Nat
  bpm : Nat
  tpb : Nat
  deriving DecidableEq, Repr

/-- `track_timeinfo`: absolute tic, tempo and signature of a measure; the
`abs` out parameter is written only when the computed tic is nonzero. -/
def track_timeinfo (t : Track) (meas : Nat) : TimeInfo :=
  let sp := seqptr_init t
  let r := seqptr_skipmeasure sp meas
  let tic := r.1 + r.2.tic
  let sp := seqptr_evget_all (r.2.future.length + 1) r.2
  { abs := if tic != 0 then some tic else none
    usec24 := (seqptr_gettempo sp).usec24
    bpm := (seqptr_getsign sp).bpm
    tpb := (seqptr_getsign sp).tpb }

/-- Helper for `seqptr_rmprev`: walk the given (chronological) cell segment
removing every cell whose event matches the frame, donating each removed
cell's delta to the next cell; a donation falling past the end of the
segment is returned (it goes to `sp.delta` in the C code, the segment
ending at the cursor). -/
def rmFrameCells (f : Ev → Bool) : List Cell → List Cell × Nat
  | [] => ([], 0)
  | c :: rest =>
    if f c.ev then
      match rest with
      | r :: rs => rmFrameCells f ({ r with delta := r.delta + c.delta } :: rs)
      | [] => ([], c.delta)
    else
      let r := rmFrameCells f rest
      (c :: r.1, r.2)
termination_by l => l.length
decreasing_by all_goals simp_all [List.length]

/-- Helper for `seqptr_rmlast`: remove the cell at the given index from a
(chronological) segment, donating its delta to the next cell, or past the
end of the segment when it is the last cell. -/
def removeCellAt : List Cell → Nat → List Cell × Nat
  | [], _ => ([], 0)
  | c :: rest, 0 =>
    match rest with
    | r :: rs => ({ r with delta := r.delta + c.delta } :: rs, 0)
    | [] => ([], c.delta)
  | c :: rest, k + 1 =>
    let r := removeCellAt rest k
    (c :: r.1, r.2)

/-- `seqptr_rmprev`: erase the whole frame of the given state between its
start cell (`st.pos`) and the cursor, as if it never existed; the state is
purged from the cursor's state list.  Returns NULL in the C code. -/
def seqptr_rmprev (sp : SeqPtr) (st : State) : SeqPtr :=
  let chron := sp.past.reverse
  let i := chron.findIdx (fun c => c.id == st.pos)
  let pre := chron.take i
  let seg := chron.drop i
  let r := rmFrameCells (fun e => state_match st e) seg
  { sp with
    past := (pre ++ r.1).reverse, delta := sp.delta + r.2,
    statelist := statelist_rm sp.statelist st }

/-- `seqptr_rmlast`: erase the most recent event of the given state's frame
between its start cell and the cursor.  If that was the frame's only
event the state is purged (returning none); otherwise the state is rolled
back to the previous event of the frame and written back to the cursor's
state list. -/
def seqptr_rmlast (sp : SeqPtr) (st : State) : Option State × SeqPtr :=
  let chron := sp.past.reverse
  let i := chron.findIdx (fun c => c.id == st.pos)
  let pre := chron.take i
  let seg := chron.drop i
  -- candidate indices: the frame start (index 0, matching by construction)
  -- followed by every later matching cell
  let ms := (List.range seg.length).filter
    (fun k => k == 0 || state_match st (seg.getD k { delta := 0, ev := { cmd := .evnull } }).ev)
  let cur := ms.getLastD 0
  let r := removeCellAt seg cur
  let sp' := { sp with past := (pre ++ r.1).reverse, delta := sp.delta + r.2 }
  if ms.length ≥ 2 then
    let prevIdx := ms.getD (ms.length - 2) 0
    let prevCell := seg.getD prevIdx { delta := 0, ev := { cmd := .evnull } }
    let st' := { st with
                 ev := prevCell.ev,
                 phase := if prevIdx == 0 then EV_PHASE_FIRST else EV_PHASE_NEXT }
    (some st', { sp' with statelist := statelist_replace sp'.statelist st' })
  else
    (none, { sp' with statelist := statelist_rm sp'.statelist st })

/-- `seqptr_evmerge1`: merge a low-priority (dst) event.  Bogus/nested
states are ignored; on a frame start the dst state is tagged live iff
there is no conflicting live src frame — the C source literally computes
`(!s2 || (!s2->phase & EV_PHASE_LAST))`, where `!` binds tighter than `&`,
and the translation preserves that shape; the event is re-emitted iff the
state is tagged.  Returns the updated dst cursor and the updated state
`s1` (which the caller writes back into its list). -/
def seqptr_evmerge1 (pd : SeqPtr) (s1 : State) (s2i : Option State) :
    SeqPtr × State :=
  if s1.fBogus || s1.fNested then (pd, s1)
  else
    let s2 : Option State :=
      match s2i with
      | some s2 => if s2.fBogus || s2.fNested then none else some s2
      | none => none
    let s1 :=
      if (s1.phase &&& EV_PHASE_FIRST) != 0 then
        { s1 with
          tag :=
            if (match s2 with
                | none => true
                | some s2v => ((if s2v.phase == 0 then 1 else 0) &&& EV_PHASE_LAST) != 0) then
              1
            else 0 }
      else s1
    if s1.tag != 0 then ((seqptr_evput pd s1.ev).2, s1) else (pd, s1)

/-- `seqptr_evmerge2`: merge a high-priority (src) event, evicting a
conflicting live dst frame (`rmprev` for notes or fresh frames, `rmlast`
for a changed controller) and restoring the dst value when the src frame
ends.  Returns the updated dst cursor and the updated states `s1`/`s2`
(which the caller writes back into their lists); the boolean reports the
`dbg_panic` reached when a tagged conflict has no state in the dst
cursor's list. -/
def seqptr_evmerge2 (pd : SeqPtr) (s1i : Option State) (s2 : State) :
    SeqPtr × Option State × State × Bool :=
  if s2.fBogus || s2.fNested then (pd, s1i, s2, false)
  else
    let s1 : Option State :=
      match s1i with
      | some s1 => if s1.fBogus || s1.fNested then none else some s1
      | none => none
    let sd := statelist_lookup pd.statelist s2.ev
    if (s2.phase &&& EV_PHASE_FIRST) != 0 then
      let panicked :=
        match s1 with
        | some s1v => s1v.tag != 0 && sd.isNone
        | none => false
      let step : SeqPtr × Option State × Option State :=
        match s1 with
        | some s1v =>
          if s1v.tag != 0 then
            let pdsd : SeqPtr × Option State :=
              if EV_ISNOTE s2.ev then
                (if (s1v.phase &&& EV_PHASE_LAST) == 0 then
                   (match sd with
                    | some sdv => (seqptr_rmprev pd sdv, none)
                    | none => (pd, sd))
                 else (pd, sd))
              else
                (if s1v.fChanged then
                   (match sd with
                    | some sdv =>
                      let r := seqptr_rmlast pd sdv
                      (r.2, r.1)
                    | none => (pd, sd))
                 else (pd, sd))
            (pdsd.1, some { s1v with tag := 0 }, pdsd.2)
          else (pd, some s1v, sd)
        | none => (pd, none, sd)
      let s2 := { s2 with tag := 1 }
      let pd := step.1
      let sd := step.2.2
      if s2.tag != 0 &&
         (match sd with
          | none => true
          | some sdv => !(state_eq sdv s2.ev)) then
        ((seqptr_evput pd s2.ev).2, step.2.1, s2, panicked)
      else
        (pd, step.2.1, s2, panicked)
    else if (s2.phase &&& EV_PHASE_NEXT) != 0 then
      -- nothing to do, conflicts already handled
      if s2.tag != 0 &&
         (match sd with
          | none => true
          | some sdv => !(state_eq sdv s2.ev)) then
        ((seqptr_evput pd s2.ev).2, s1i, s2, false)
      else
        (pd, s1i, s2, false)
    else if (s2.phase &&& EV_PHASE_LAST) != 0 then
      match s1 with
      | some s1v =>
        let s2 := { s2 with tag := 0 }
        let pdsd : SeqPtr × Option State :=
          match sd with
          | none =>
            let r := seqptr_evput pd s1v.ev
            (r.2, r.1)
          | some sdv =>
            if !(state_eq sdv s1v.ev) then
              let r := seqptr_evput pd s1v.ev
              (r.2, r.1)
            else (pd, sd)
        let s1' := { s1v with tag := 1 }
        let pd := pdsd.1
        let sd := pdsd.2
        if s2.tag != 0 &&
           (match sd with
            | none => true
            | some sdv => !(state_eq sdv s2.ev)) then
          ((seqptr_evput pd s2.ev).2, some s1', s2, false)
        else
          (pd, some s1', s2, false)
      | none =>
        if s2.tag != 0 &&
           (match sd with
            | none => true
            | some sdv => !(state_eq sdv s2.ev)) then
          ((seqptr_evput pd s2.ev).2, s1i, s2, false)
        else
          (pd, s1i, s2, false)
    else
      if s2.tag != 0 &&
         (match sd with
          | none => true
          | some sdv => !(state_eq sdv s2.ev)) then
        ((seqptr_evput pd s2.ev).2, s1i, s2, false)
      else
        (pd, s1i, s2, false)

/-- The first inner loop of `track_merge`: delete every event of dst at the
current tic into `orglist` and re-merge it against the src state table. -/
def merge_loop1 : Nat → SeqPtr → List State → List State → SeqPtr × List State
  | 0, pd, _, org => (pd, org)
  | fuel + 1, pd, p2slist, org =>
    let r := seqptr_evdel pd (some org)
    match r.1 with
    | none => (r.2.1, org)
    | some s1 =>
      let pd := r.2.1
      let org := r.2.2.getD org
      let s2 := statelist_lookup p2slist s1.ev
      let m := seqptr_evmerge1 pd s1 s2
      merge_loop1 fuel m.1 p2slist (statelist_replace org m.2)

/-- The second inner loop of `track_merge`: read every event of src at the
current tic and merge it into dst against the original dst state. -/
def merge_loop2 : Nat → SeqPtr → SeqPtr → List State → SeqPtr × SeqPtr × List State
  | 0, p2, pd, org => (p2, pd, org)
  | fuel + 1, p2, pd, org =>
    let r := seqptr_evget p2
    match r.1 with
    | none => (r.2, pd, org)
    | some s2 =>
      let p2 := r.2
      let s1 := statelist_lookup org s2.ev
      let m := seqptr_evmerge2 pd s1 s2
      let org := match m.2.1 with
                 | some s1' => statelist_replace org s1'
                 | none => org
      let p2 := { p2 with statelist := statelist_replace p2.statelist m.2.2.1 }
      merge_loop2 fuel p2 m.1 org

/-- The outer loop of `track_merge`: merge the current tic of both tracks,
then advance both cursors to the next non-empty tic, or stop when both
are at their sentinel. -/
def merge_outer : Nat → SeqPtr → SeqPtr → List State → SeqPtr × SeqPtr × List State
  | 0, pd, p2, org => (pd, p2, org)
  | fuel + 1, pd, p2, org =>
    let a := merge_loop1 (pd.future.length + 1) pd p2.statelist org
    let pd := a.1
    let org := a.2
    let b := merge_loop2 (p2.future.length + 1) p2 pd org
    let p2 := b.1
    let pd := b.2.1
    let org := b.2.2
    let delta1 := pd.posdelta - pd.delta
    let delta2 := p2.posdelta - p2.delta
    if delta1 > 0 then
      let deltad := if delta2 > 0 && delta2 < delta1 then delta2 else delta1
      let p2 := (seqptr_ticskip p2 deltad).2
      let r := seqptr_ticdel pd deltad (some org)
      let pd := seqptr_ticput r.2.1 deltad
      merge_outer fuel pd p2 (r.2.2.getD org)
    else if delta2 > 0 then
      let deltad := delta2
      let p2 := (seqptr_ticskip p2 deltad).2
      let r := seqptr_ticdel pd deltad (some org)
      let pd := seqptr_ticput r.2.1 deltad
      merge_outer fuel pd p2 (r.2.2.getD org)
    else
      (pd, p2, org)

/-- Sum of the deltas of a cell list. -/
def cellsTicLen (l : List Cell) : Nat := (l.map Cell.delta).sum

/-- Total tic length of a track (sum of all deltas, sentinel included). -/
def trackTicLen (t : Track) : Nat := cellsTicLen t.cells

/-- `track_merge`: overlay the high-priority track `src` onto `dst`,
resolving conflicts, then chomp the trailing blank of `dst`. -/
def track_merge (dst src : Track) : Track :=
  let pd := seqptr_init dst
  let p2 := seqptr_init src
  let fuel := pd.future.length + p2.future.length +
              cellsTicLen pd.future + cellsTicLen p2.future + 1
  let r := merge_outer fuel pd p2 []
  track_chomp (seqptr_track r.1)

/-- The per-event offset computation of `track_quantize` (frame.c lines
899-904): `remaind = quant != 0 ? (tic - start + offset) % quant : 0` and
`ofs = remaind < quant / 2 ? -((remaind * rate + 99) / 100)
: ((quant - remaind) * rate + 99) / 100`. -/
def quantize_ofs (start offset quant rate tic : Nat) : Int :=
  let remaind := if quant != 0 then (tic - start + offset) % quant else 0
  if remaind < quant / 2 then
    -(Int.ofNat ((remaind * rate + 99) / 100))
  else
    Int.ofNat (((quant - remaind) * rate + 99) / 100)

/-- Running state of the `track_quantize` loops. -/
structure QuantState where
  sp : SeqPtr
  qp : SeqPtr
  slist : List State
  tic : Nat
  ofs : Int
  fluct : Nat
  notes : Nat
  panicked : Bool
  deriving DecidableEq, Repr

/-- First loop of `track_quantize`: copy the events to quantize during
`len` tics while stretching the time scale in the destination track.  The
translation preserves the source's break path, on which the tics measured
by the last `seqptr_ticdel` are not written back by `seqptr_ticput`.  The
FRAME_DEBUG `delta < -ofs` check is modelled by the `panicked` flag (the
C code aborts; the model keeps running and records the abort). -/
def quantize_loop1 (start len offset quant rate : Nat) : Nat → QuantState → QuantState
  | 0, q => q
  | fuel + 1, q =>
    let r := seqptr_ticdel q.sp len (some q.slist)
    let delta := r.1
    let sp := r.2.1
    let slist := r.2.2.getD q.slist
    let tic := q.tic + delta
    if tic ≥ start + len || !(seqptr_evavail sp) then
      { q with sp := sp, slist := slist, tic := tic }
    else
      let sp := seqptr_ticput sp delta
      let d1 : Int := (delta : Int) - q.ofs
      let ofs := quantize_ofs start offset quant rate tic
      let panicked := q.panicked || (ofs < 0 && d1 < -ofs)
      let d2 : Int := d1 + ofs
      let qp := seqptr_ticput q.qp d2.toNat
      let rr := seqptr_evdel sp (some slist)
      match rr.1 with
      | none =>
        { q with sp := rr.2.1, qp := qp, slist := slist, tic := tic,
                 ofs := ofs, panicked := panicked }
      | some st =>
        let sp := rr.2.1
        let slist := rr.2.2.getD slist
        let stFl : State × Nat × Nat :=
          if (st.phase &&& EV_PHASE_FIRST) != 0 then
            if EV_ISNOTE st.ev then
              ({ st with tag := 1 }, q.fluct + ofs.natAbs, q.notes + 1)
            else
              ({ st with tag := 0 }, q.fluct, q.notes)
          else (st, q.fluct, q.notes)
        let st := stFl.1
        let slist := statelist_replace slist st
        let spqp : SeqPtr × SeqPtr :=
          if st.tag != 0 then (sp, (seqptr_evput qp st.ev).2)
          else ((seqptr_evput sp st.ev).2, qp)
        quantize_loop1 start len offset quant rate fuel
          { sp := spqp.1, qp := spqp.2, slist := slist, tic := tic, ofs := ofs,
            fluct := stFl.2.1, notes := stFl.2.2, panicked := panicked }

/-- Second loop of `track_quantize`: finish the tagged (quantised) frames
past the region. -/
def quantize_loop2 : Nat → QuantState → QuantState
  | 0, q => q
  | fuel + 1, q =>
    let r := seqptr_ticdel q.sp UINT_MAX (some q.slist)
    let delta := r.1
    let sp := seqptr_ticput r.2.1 delta
    let slist := r.2.2.getD q.slist
    if !(seqptr_evavail sp) then
      { q with sp := sp, slist := slist }
    else
      let rr := seqptr_evdel sp (some slist)
      match rr.1 with
      | none => { q with sp := rr.2.1, slist := slist }
      | some st =>
        let sp := rr.2.1
        let slist := rr.2.2.getD slist
        let st := if (st.phase &&& EV_PHASE_FIRST) != 0 then { st with tag := 0 } else st
        let slist := statelist_replace slist st
        let qp := seqptr_ticput q.qp delta
        let spqp : SeqPtr × SeqPtr :=
          if st.tag != 0 then (sp, (seqptr_evput qp st.ev).2)
          else ((seqptr_evput sp st.ev).2, qp)
        quantize_loop2 fuel { q with sp := spqp.1, qp := spqp.2, slist := slist }

/-- `track_quantize`: quantize the note starts of `src` within
`[start, start+len)` into a scratch track, then merge it back.  The
boolean reports whether the FRAME_DEBUG `delta < -ofs` abort was hit. -/
def track_quantize (src : Track) (start len offset quant rate : Nat) :
    Track × Bool :=
  let qt := track_init
  let sp := seqptr_init src
  let qp := seqptr_init qt
  let sp := (seqptr_skip sp start).2
  let slist := (statelist_dup sp.statelist).map (fun st => { st with tag := 0 })
  let qp := seqptr_seek qp start
  let q0 : QuantState :=
    { sp := sp, qp := qp, slist := slist, tic := start, ofs := 0,
      fluct := 0, notes := 0, panicked := false }
  let q1 := quantize_loop1 start len offset quant rate (q0.sp.future.length + 1) q0
  let q2 := quantize_loop2 (q1.sp.future.length + 1) q1
  (track_merge (seqptr_track q2.sp) (seqptr_track q2.qp), q2.panicked)

/-- Deletion loop of `track_timerm`: remove blank and events during `len`
tics, untagging the frames of the removed events.  Returns the remaining
`len` together with the cursor and erase list. -/
def timerm_del : Nat → SeqPtr → List State → Nat → SeqPtr × List State × Nat
  | 0, sp, sl, len => (sp, sl, len)
  | fuel + 1, sp, sl, len =>
    let r := seqptr_ticdel sp len (some sl)
    let len := len - r.1
    let sp := r.2.1
    let sl := r.2.2.getD sl
    if len == 0 then (sp, sl, 0)
    else if !(seqptr_evavail sp) then (sp, sl, len)
    else
      let rr := seqptr_evdel sp (some sl)
      match rr.1 with
      | none => (rr.2.1, sl, len)
      | some st =>
        let sl := statelist_replace (rr.2.2.getD sl) { st with tag := 0 }
        timerm_del fuel rr.2.1 sl len

/-- "Process the next tic" loop of `track_timerm`: frames just past the cut
restore themselves; duplicates of the current cursor state are dropped. -/
def timerm_nexttic : Nat → SeqPtr → List State → SeqPtr × List State
  | 0, sp, sl => (sp, sl)
  | fuel + 1, sp, sl =>
    if !(seqptr_evavail sp) then (sp, sl)
    else
      let r := seqptr_evdel sp (some sl)
      match r.1 with
      | none => (r.2.1, sl)
      | some st =>
        let sp := r.2.1
        let sl := r.2.2.getD sl
        let sp :=
          match statelist_lookup sp.statelist st.ev with
          | none => (seqptr_evput sp st.ev).2
          | some ost => if !(state_eq ost st.ev) then (seqptr_evput sp st.ev).2 else sp
        let sl := statelist_replace sl { st with tag := 1 }
        timerm_nexttic fuel sp sl

/-- Restore loop of `track_timerm`: re-emit (from the pre-cut states) every
frame that did not restore itself, tagging it. -/
def timerm_restore_go : List State → SeqPtr → SeqPtr × List State
  | [], sp => (sp, [])
  | st :: rest, sp =>
    if st.tag == 0 then
      let sp :=
        match statelist_lookup sp.statelist st.ev with
        | none => (seqptr_evput sp st.ev).2
        | some ost => if !(state_eq ost st.ev) then (seqptr_evput sp st.ev).2 else sp
      let r := timerm_restore_go rest sp
      (r.1, { st with tag := 1 } :: r.2)
    else
      let r := timerm_restore_go rest sp
      (r.1, st :: r.2)

/-- Final loop of `track_timerm`: copy the remaining events, dropping
duplicates of the current cursor state. -/
def timerm_copy : Nat → SeqPtr → List State → SeqPtr × List State
  | 0, sp, sl => (sp, sl)
  | fuel + 1, sp, sl =>
    let r := seqptr_ticdel sp UINT_MAX (some sl)
    let sp := seqptr_ticput r.2.1 r.1
    let sl := r.2.2.getD sl
    if !(seqptr_evavail sp) then (sp, sl)
    else
      let rr := seqptr_evdel sp (some sl)
      match rr.1 with
      | none => (rr.2.1, sl)
      | some st =>
        let sp := rr.2.1
        let sl := statelist_replace (rr.2.2.getD sl) { st with tag := 1 }
        let sp :=
          match statelist_lookup sp.statelist st.ev with
          | none => (seqptr_evput sp st.ev).2
          | some ost => if !(state_eq ost st.ev) then (seqptr_evput sp st.ev).2 else sp
        timerm_copy fuel sp sl

/-- The number of tics `track_timerm` computes for the cut: the tic span of
`amount` measures starting at measure `measure` (clipped at the end of
the track), read off the same cursor walk as in the source. -/
def track_timerm_span (t : Track) (measure amount : Nat) : Nat :=
  let sp := seqptr_init t
  let r := seqptr_skipmeasure sp measure
  let tic := r.2.tic
  let r2 := seqptr_skipmeasure r.2 amount
  r2.2.tic - tic

/-- The end-of-track residual of walking `measure` measures from the start
of the track (nonzero exactly when the measure lies past the end). -/
def track_measure_residual (t : Track) (measure : Nat) : Nat :=
  (seqptr_skipmeasure (seqptr_init t) measure).1

/-- `track_timerm`: delete `amount` measures starting at `measure`; return
immediately (track unchanged) when the start measure lies past the end of
the track. -/
def track_timerm (t : Track) (measure amount : Nat) : Track :=
  let sp := seqptr_init t
  let r := seqptr_skipmeasure sp measure
  if r.1 != 0 then t
  else
    let sp := r.2
    let tic := sp.tic
    let sp := (seqptr_skipmeasure sp amount).2
    let len := sp.tic - tic
    let sp := seqptr_init t
    let sp := (seqptr_skip sp tic).2
    let slist := (statelist_dup sp.statelist).map (fun st => { st with tag := 1 })
    let a := timerm_del (sp.future.length + 1) sp slist len
    let b := timerm_nexttic (a.1.future.length + 1) a.1 a.2.1
    let c := timerm_restore_go b.2 b.1
    let d := timerm_copy (c.1.future.length + 1) c.1 c.2
    seqptr_track d.1

/-- Result of `track_confev`: the rebuilt track, whether the bad-phase
branch was taken, the event payload that branch reads for its log message
(`none` models the uninitialised local `st` the C code dereferences), and
whether a `dbg_panic` was reached (the function contains none). -/
structure ConfevResult where
  track : Track
  badphase : Bool
  loggedEv : Option Ev
  panicked : Bool
  deriving DecidableEq, Repr

/-- Deletion loop of `track_confev`: empty the track into a state list,
stamping each state with an increasing serial in `tag`. -/
def confev_del : Nat → SeqPtr → List State → Nat → SeqPtr × List State × Nat
  | 0, sp, sl, tagmax => (sp, sl, tagmax)
  | fuel + 1, sp, sl, tagmax =>
    let r := seqptr_ticdel sp UINT_MAX (some sl)
    let sp := r.2.1
    let sl := r.2.2.getD sl
    let rr := seqptr_evdel sp (some sl)
    match rr.1 with
    | none => (rr.2.1, sl, tagmax)
    | some st =>
      let sl := statelist_replace (rr.2.2.getD sl) { st with tag := tagmax }
      confev_del fuel rr.2.1 sl (tagmax + 1)

/-- Inner search of the `track_confev` dump loop: the state with the
smallest serial `tag` at least `tagmin` (ties broken by list order). -/
def confev_findmin (sl : List State) (tagmin tagmax : Nat) : Option State × Nat :=
  sl.foldl
    (fun acc s => if s.tag ≥ tagmin && s.tag < acc.2 then (some s, s.tag) else acc)
    (none, tagmax)

/-- Dump loop of `track_confev`: replay the states in serial order through
`state_restore`, skipping events whose value already matches the rebuilt
cursor state. -/
def confev_dump : Nat → SeqPtr → List State → Nat → Nat → SeqPtr
  | 0, sp, _, _, _ => sp
  | fuel + 1, sp, sl, tagmin, tagmax =>
    if tagmin < tagmax then
      let f := confev_findmin sl tagmin tagmax
      let sp :=
        match f.1 with
        | none => sp
        | some st =>
          (state_restore st).foldl
            (fun sp e =>
              match statelist_lookup sp.statelist e with
              | some s => if state_eq s e then sp else (seqptr_evput sp e).2
              | none => (seqptr_evput sp e).2)
            sp
      confev_dump fuel sp sl (f.2 + 1) tagmax
    else sp

/-- `track_confev`: replace the singleton configuration event of `ev`'s
frame, preserving the relative update order of the other frames.  An
event whose phase is not FIRST|LAST takes the logging branch and is
dropped (the C code logs `ev_dbg(&st->ev)` through the still-unassigned
local `st`, modelled by `stLocal = none`, and simply returns). -/
def track_confev (t : Track) (e : Ev) : ConfevResult :=
  let stLocal : Option State := none
  if ev_phase e != (EV_PHASE_FIRST ||| EV_PHASE_LAST) then
    { track := t, badphase := true,
      loggedEv := stLocal.map (fun s => s.ev), panicked := false }
  else
    let sp := seqptr_init t
    let r := confev_del (sp.future.length + 1) sp [] 0
    let u := statelist_update r.2.1 e
    let sl := statelist_replace u.2 { u.1 with tag := r.2.2 }
    let tagmax := r.2.2 + 1
    let sp := confev_dump (tagmax + 1) r.1 sl 0 tagmax
    { track := seqptr_track sp, badphase := false, loggedEv := none,
      panicked := false }

/-- The canonical left-to-right scan of a track's cells: outdate at each
nonzero delta (one tic advance happens before the events of every
non-empty tic), update with each event, and fail as soon as an update
produces a BOGUS or NESTED state.  Mirroring `seqptr_evmerge1` against an
empty high-priority side, a frame-opening state is tagged live (`tag = 1`)
and written back. -/
def scanSteps : List State → List Cell → List State × Bool
  | org, [] => (org, true)
  | org, c :: rest =>
    let org := if c.delta > 0 then statelist_outdate org else org
    if c.ev.cmd == .evnull then scanSteps org rest
    else
      let u := statelist_update org c.ev
      if u.1.fBogus || u.1.fNested then (u.2, false)
      else
        let st := if (u.1.phase &&& EV_PHASE_FIRST) != 0 then { u.1 with tag := 1 } else u.1
        scanSteps (statelist_replace u.2 st) rest

/-- A track is consistent when scanning it never produces a BOGUS or NESTED
state. -/
def track_consistent (t : Track) : Bool := (scanSteps [] t.cells).2

/-- Structural well-formedness of a track's cell list: nonempty, ends with
the sentinel, and no interior cell carries the NULL command. -/
def cellsWF : List Cell → Bool
  | [] => false
  | [c] => c.ev.cmd == .evnull
  | c :: c2 :: rest => c.ev.cmd != .evnull && cellsWF (c2 :: rest)

/-- See `cellsWF`. -/
def track_wf (t : Track) : Bool := cellsWF t.cells

/-- The observable (delta, event) content of a cell list. -/
def cellsData (l : List Cell) : List (Nat × Ev) :=
  l.map (fun c => (c.delta, c.ev))

/-- All cells a cursor's track consists of, in track order. -/
def spCells (sp : SeqPtr) : List Cell := sp.past.reverse ++ sp.future

/-- The cells from the cursor on, with the already-elapsed `sp.delta` tics
removed from the first cell (what remains to be scanned). -/
def remCells (sp : SeqPtr) : List Cell :=
  match sp.future with
  | c :: rest => { c with delta := c.delta - sp.delta } :: rest
  | [] => []

/-- Total tic length of a cursor's track. -/
def seqptr_ticlen (sp : SeqPtr) : Nat := cellsTicLen (spCells sp)

/-- Tics remaining between the cursor and the end of the track. -/
def sp_rem (sp : SeqPtr) : Nat := cellsTicLen sp.future - sp.delta

/-- The trailing blank of a cell list (the delta of its last cell). -/
def cellsTrailing : List Cell → Nat
  | [] => 0
  | [c] => c.delta
  | _ :: c2 :: rest => cellsTrailing (c2 :: rest)

/-- Example events and tracks used as concrete inputs by the witnesses and
counterexamples below. -/
def exEvCtl : Ev := { cmd := .ctl, ch := 0, b0 := 7, b1 := 100 }

/-- See `exEvCtl`. -/
def exEvNon : Ev := { cmd := .non, ch := 0, b0 := 60, b1 := 100 }

/-- See `exEvCtl`. -/
def exEvNoff : Ev := { cmd := .noff, ch := 0, b0 := 60, b1 := 0 }

/-- See `exEvCtl`. -/
def exEvNull : Ev := { cmd := .evnull }

/-- See `exEvCtl`. -/
def exEvTS : Ev := { cmd := .timesig, b0 := 4, b1 := 120 }

/-- A track with 5 trailing blank tics and no event at all. -/
def exTrackBlank5 : Track :=
  { cells := [ { id := 0, delta := 5, ev := exEvNull } ], nextId := 1 }

/-- A track holding one controller event at tic 10. -/
def exTrackCtl10 : Track :=
  { cells := [ { id := 0, delta := 10, ev := exEvCtl },
               { id := 1, delta := 0, ev := exEvNull } ], nextId := 2 }

/-- A consistent track with no trailing blank: a controller at tic 0 and a
complete note from tic 3 to tic 5. -/
def exTrackNice : Track :=
  { cells := [ { id := 0, delta := 0, ev := exEvCtl },
               { id := 1, delta := 3, ev := exEvNon },
               { id := 2, delta := 2, ev := exEvNoff },
               { id := 3, delta := 0, ev := exEvNull } ], nextId := 4 }

/-- A tempo track: TimeSig(4, 120) at tic 0, a controller at tic 500, then
1000 tics of blank (total length 1500, measure length 480). -/
def exTrackMeas : Track :=
  { cells := [ { id := 0, delta := 0, ev := exEvTS },
               { id := 1, delta := 500, ev := exEvCtl },
               { id := 2, delta := 1000, ev := exEvNull } ], nextId := 3 }

/-- A state whose frame terminated (phase exactly LAST) and was already
observed (NEW clear): `statelist_outdate` removes it. -/
def exStateEnded : State := { ev := exEvNoff, phase := EV_PHASE_LAST }

/-- A dst-side state that has just opened a frame (phase FIRST, clean). -/
def exS1First : State := { ev := exEvNon, phase := EV_PHASE_FIRST }

/-- A src-side state whose frame has ended (phase LAST, clean). -/
def exS2Last : State := { ev := exEvNon, phase := EV_PHASE_LAST }

/-- A cursor standing at tic 0 of `exTrackCtl10`. -/
def exSeqPtr : SeqPtr := seqptr_init exTrackCtl10

/-! ## Theorems -/

/-- Ceiling bridge: the C idiom `(a + 99) / 100` computes `⌈a / 100⌉`. -/
lemma ceil_div_100 (a : Nat) : ⌈(a : ℚ) / 100⌉ = (((a + 99) / 100 : Nat) : ℤ) := by
  obtain ⟨z, hz⟩ : ∃ z, (a + 99) / 100 = z := ⟨_, rfl⟩
  have h := Nat.div_add_mod (a + 99) 100
  have hm : (a + 99) % 100 < 100 := Nat.mod_lt _ (by norm_num)
  rw [hz] at h ⊢
  rw [Int.ceil_eq_iff]
  constructor
  · rw [lt_div_iff₀ (show (0 : ℚ) < 100 by norm_num)]
    have hzi : (((z : ℤ)) - 1) * 100 < (a : ℤ) := by omega
    calc (((z : Nat) : ℚ) - 1) * 100 = ((((z : ℤ)) - 1) * 100 : ℤ) := by push_cast; ring
      _ < (a : ℚ) := by exact_mod_cast hzi
  · rw [div_le_iff₀ (show (0 : ℚ) < 100 by norm_num)]
    exact_mod_cast (show (a : ℤ) ≤ (z : ℤ) * 100 by omega)

/-- C4: for every note-start processed by `track_quantize` at tic `tic` of
the region, the computed offset is `-⌈r·rate/100⌉` when `r < quant/2` and
`+⌈(quant−r)·rate/100⌉` otherwise, where `r = (tic − start + offset) mod
quant`; when `quant = 0` the offset is the formula taken at `r = 0`; and
`rate = 0` always yields offset 0. -/
theorem C4_quantize_offset_formula (start offset quant rate tic : Nat)
    (_h : start ≤ tic) :
    (quant ≠ 0 →
      quantize_ofs start offset quant rate tic =
        (if (tic - start + offset) % quant < quant / 2 then
           -⌈(((tic - start + offset) % quant * rate : Nat) : ℚ) / 100⌉
         else
           ⌈(((quant - (tic - start + offset) % quant) * rate : Nat) : ℚ) / 100⌉)) ∧
    (quant = 0 →
      quantize_ofs start offset quant rate tic =
        (if (0 : Nat) < quant / 2 then -⌈((0 * rate : Nat) : ℚ) / 100⌉
         else ⌈(((quant - 0) * rate : Nat) : ℚ) / 100⌉)) ∧
    (rate = 0 → quantize_ofs start offset quant rate tic = 0) := by
  refine ⟨?_, ?_, ?_⟩
  · intro hq
    rw [ceil_div_100, ceil_div_100]
    simp only [quantize_ofs, bne_iff_ne, ne_eq, hq, not_false_eq_true, if_true]
    split <;> simp [Int.ofNat_eq_natCast]
  · intro hq
    subst hq
    rw [ceil_div_100]
    simp [quantize_ofs]
  · intro hr
    subst hr
    simp only [quantize_ofs]
    have h99 : ∀ x : Nat, (x * 0 + 99) / 100 = 0 := by intro x; simp
    split <;> simp [h99]

/-- Witness for `C4_quantize_offset_formula` at a concrete input. -/
theorem C4_quantize_offset_formula_witness :
    (0 : Nat) ≤ 13 ∧
    ((240 : Nat) ≠ 0 →
      quantize_ofs 0 0 240 100 13 =
        (if (13 - 0 + 0) % 240 < 240 / 2 then
           -⌈(((13 - 0 + 0) % 240 * 100 : Nat) : ℚ) / 100⌉
         else
           ⌈(((240 - (13 - 0 + 0) % 240) * 100 : Nat) : ℚ) / 100⌉)) := by
  refine ⟨by norm_num, ?_⟩
  exact (C4_quantize_offset_formula 0 0 240 100 13 (by norm_num)).1

/-- C1: the dst-side merge of a frame-opening state `s1` against a src
state `s2` whose phase contains LAST.  The claim requires `s1` to be
tagged live (tag 1) and its event re-emitted; the code computes
`(!s2->phase & EV_PHASE_LAST)`, which is always 0, so it tags the frame
silent (tag 0) and emits nothing — evaluated here at such an input. -/
theorem C1_evmerge1_silences_ended_src_frame :
    (exS2Last.phase &&& EV_PHASE_LAST ≠ 0) ∧
    exS2Last.fBogus = false ∧ exS2Last.fNested = false ∧
    (exS1First.phase &&& EV_PHASE_FIRST ≠ 0) ∧
    (seqptr_evmerge1 (seqptr_init track_init) exS1First (some exS2Last)).2.tag = 0 ∧
    (seqptr_evmerge1 (seqptr_init track_init) exS1First (some exS2Last)).1 =
      seqptr_init track_init := by
  decide

/-- C2 (counterexample): merging the empty track into a track with 5
trailing blank tics chomps the sentinel delta — the (delta, event)
sequence changes, so `merge(t, empty)` does not leave every `t`
unchanged. -/
theorem C2_merge_empty_counterexample :
    track_data (track_merge exTrackBlank5 track_init) ≠ track_data exTrackBlank5 := by
  decide

/-- C3: `track_quantize` on a track whose only event is a non-note
controller at absolute tic 10, quantizing the region [0, 5), moves that
event to absolute tic 5: the tics deleted by the final `seqptr_ticdel` of
the copy loop are dropped on the break path, so an event outside the
region does not keep its absolute tic as the claim requires. -/
theorem C3_quantize_moves_untouched_event :
    track_data exTrackCtl10 = [(10, exEvCtl), (0, exEvNull)] ∧
    track_data (track_quantize exTrackCtl10 0 5 0 4 100).1 =
      [(5, exEvCtl), (0, exEvNull)] ∧
    (track_quantize exTrackCtl10 0 5 0 4 100).2 = false := by
  decide

/-- C5 (counterexample): `seqptr_ticdel` with `max = 0` and a non-NULL
erase list does not outdate the list (the code outdates only when
`max > 0`), although outdating would have changed it. -/
theorem C5_ticdel_counterexample :
    (seqptr_ticdel exSeqPtr 0 (some [exStateEnded])).2.2 = some [exStateEnded] ∧
    statelist_outdate [exStateEnded] ≠ [exStateEnded] := by
  decide

/-- C5 (amended): `seqptr_ticdel(sp, max, slist)` returns
`min max (pos->delta − delta)`, subtracts that from `pos->delta`, leaves
`delta` and `tic` unchanged, and outdates a provided erase list exactly
when `max > 0`. -/
theorem C5_ticdel_amended (sp : SeqPtr) (max : Nat) (slist : Option (List State)) :
    (seqptr_ticdel sp max slist).1 = min max (sp.posdelta - sp.delta) ∧
    (seqptr_ticdel sp max slist).2.1.posdelta =
      sp.posdelta - (seqptr_ticdel sp max slist).1 ∧
    (seqptr_ticdel sp max slist).2.1.delta = sp.delta ∧
    (seqptr_ticdel sp max slist).2.1.tic = sp.tic ∧
    (seqptr_ticdel sp max slist).2.2 =
      (if max > 0 then slist.map statelist_outdate else slist) := by
  cases hf : sp.future with
  | nil =>
    refine ⟨?_, ?_, rfl, rfl, ?_⟩
    · simp [seqptr_ticdel, SeqPtr.posdelta, hf, min_def]
    · simp [seqptr_ticdel, SeqPtr.posdelta, hf]
    · cases slist <;> simp [seqptr_ticdel, hf] <;> split <;> rfl
  | cons c rest =>
    refine ⟨?_, ?_, rfl, rfl, ?_⟩
    · simp only [seqptr_ticdel, SeqPtr.posdelta, hf, min_def]
      split <;> split <;> omega
    · simp [seqptr_ticdel, SeqPtr.posdelta, hf]
    · cases slist <;> simp [seqptr_ticdel, hf] <;> split <;> rfl

/-- C7 (counterexample): `track_confev` applied (FRAME_DEBUG is defined in
frame.c) to an event whose phase is not FIRST|LAST does not abort: it
takes the logging branch, returns with the track unchanged and no
`dbg_panic` reached, contradicting "fatal abort in debug builds". -/
theorem C7_confev_no_abort_counterexample :
    ev_phase exEvNon ≠ (EV_PHASE_FIRST ||| EV_PHASE_LAST) ∧
    track_confev exTrackNice exEvNon =
      { track := exTrackNice, badphase := true, loggedEv := none,
        panicked := false } := by
  decide

/-- C7 (amended): for every event whose phase is not FIRST|LAST,
`track_confev` logs the violation and returns with the event dropped and
the track unchanged, in debug and release builds alike; no abort
happens (the branch contains no `dbg_panic` and is not conditional on
FRAME_DEBUG). -/
theorem C7_confev_bad_phase_drops_event (t : Track) (e : Ev)
    (h : ev_phase e ≠ (EV_PHASE_FIRST ||| EV_PHASE_LAST)) :
    (track_confev t e).track = t ∧
    (track_confev t e).badphase = true ∧
    (track_confev t e).panicked = false := by
  have hb : (ev_phase e != (EV_PHASE_FIRST ||| EV_PHASE_LAST)) = true := by
    simpa using h
  unfold track_confev
  rw [hb]
  simp

/-- Witness for `C7_confev_bad_phase_drops_event`. -/
theorem C7_confev_bad_phase_drops_event_witness :
    ev_phase exEvNoff ≠ (EV_PHASE_FIRST ||| EV_PHASE_LAST) ∧
    (track_confev track_init exEvNoff).track = track_init := by
  refine ⟨by decide, ?_⟩
  exact (C7_confev_bad_phase_drops_event track_init exEvNoff (by decide)).1

/-- C9: for every event whose phase is not FIRST|LAST the bad-phase branch
of `track_confev` is reached, and the event it logs is read through the
local variable `st`, which has not been assigned yet (`loggedEv = none`
models the uninitialised read); in particular the log does not carry the
argument event. -/
theorem C9_confev_logs_uninitialized_state (t : Track) (e : Ev)
    (h : ev_phase e ≠ (EV_PHASE_FIRST ||| EV_PHASE_LAST)) :
    (track_confev t e).badphase = true ∧
    (track_confev t e).loggedEv = none ∧
    (track_confev t e).loggedEv ≠ some e := by
  have hb : (ev_phase e != (EV_PHASE_FIRST ||| EV_PHASE_LAST)) = true := by
    simpa using h
  unfold track_confev
  rw [hb]
  simp

/-- Witness for `C9_confev_logs_uninitialized_state`. -/
theorem C9_confev_logs_uninitialized_state_witness :
    ev_phase exEvNon ≠ (EV_PHASE_FIRST ||| EV_PHASE_LAST) ∧
    (track_confev exTrackCtl10 exEvNon).loggedEv = none := by
  refine ⟨by decide, ?_⟩
  exact (C9_confev_logs_uninitialized_state exTrackCtl10 exEvNon (by decide)).2.1

/-! ### Primitive effect kit -/

lemma evget_tic (sp : SeqPtr) : (seqptr_evget sp).2.tic = sp.tic := by
  unfold seqptr_evget
  split
  · rfl
  · rcases hf : sp.future with _ | ⟨c, rest⟩ <;> simp [hf]

lemma evget_spCells (sp : SeqPtr) : spCells (seqptr_evget sp).2 = spCells sp := by
  unfold seqptr_evget
  split
  · rfl
  · rcases hf : sp.future with _ | ⟨c, rest⟩ <;> simp [hf, spCells]

lemma evget_inv (sp : SeqPtr) (h : sp.delta ≤ sp.posdelta) :
    (seqptr_evget sp).2.delta ≤ (seqptr_evget sp).2.posdelta := by
  unfold seqptr_evget
  split
  · exact h
  · rcases hf : sp.future with _ | ⟨c, rest⟩
    · exact h
    · simp [hf]

lemma evget_none_eq (sp : SeqPtr) (h : (seqptr_evget sp).1 = none) :
    (seqptr_evget sp).2 = sp := by
  unfold seqptr_evget at h ⊢
  split at h
  · split
    · rfl
    · simp_all
  · rcases hf : sp.future with _ | ⟨c, rest⟩ <;> simp_all

lemma evget_some_len (sp : SeqPtr) (st : State) (h : (seqptr_evget sp).1 = some st) :
    (seqptr_evget sp).2.future.length + 1 = sp.future.length := by
  unfold seqptr_evget at h ⊢
  split at h
  · simp_all
  · rcases hf : sp.future with _ | ⟨c, rest⟩ <;> simp_all

lemma cellsTicLen_nil : cellsTicLen [] = 0 := rfl

lemma cellsTicLen_cons (c : Cell) (l : List Cell) :
    cellsTicLen (c :: l) = c.delta + cellsTicLen l := by
  simp [cellsTicLen]

lemma cellsTicLen_append (a b : List Cell) :
    cellsTicLen (a ++ b) = cellsTicLen a + cellsTicLen b := by
  simp [cellsTicLen]

lemma cellsTicLen_reverse (a : List Cell) :
    cellsTicLen a.reverse = cellsTicLen a := by
  simp [cellsTicLen, List.sum_reverse]

lemma posdelta_le_ticlen (sp : SeqPtr) : sp.posdelta ≤ cellsTicLen sp.future := by
  rcases hf : sp.future with _ | ⟨c, rest⟩ <;>
    simp [SeqPtr.posdelta, hf, cellsTicLen_cons]

lemma cellsWF_set_head_delta (c : Cell) (x : Nat) (rest : List Cell) :
    cellsWF ({ c with delta := x } :: rest) = cellsWF (c :: rest) := by
  cases rest <;> simp [cellsWF]

lemma evget_rem (sp : SeqPtr) : sp_rem (seqptr_evget sp).2 = sp_rem sp := by
  unfold seqptr_evget
  split
  · rfl
  · rename_i hcond
    rcases hf : sp.future with _ | ⟨c, rest⟩
    · rfl
    · have hd : sp.delta = c.delta := by
        have h1 : sp.delta = sp.posdelta := by
          by_contra hne
          simp [hne] at hcond
        simpa [SeqPtr.posdelta, hf] using h1
      simp [hf, sp_rem, cellsTicLen_cons, hd]

lemma evget_wf (sp : SeqPtr) (h : cellsWF sp.future = true) :
    cellsWF (seqptr_evget sp).2.future = true := by
  unfold seqptr_evget
  split
  · exact h
  · rename_i hcond
    rcases hf : sp.future with _ | ⟨c, rest⟩
    · exact h
    · rcases rest with _ | ⟨c2, rest2⟩
      · exfalso
        have hnn : ¬c.ev.cmd = .evnull := by
          simp [SeqPtr.posev, SeqPtr.posdelta, hf] at hcond
          exact hcond.2
        simp [cellsWF, hf] at h
        exact hnn h
      · simp only [hf]
        simp [cellsWF, hf] at h
        simpa [cellsWF] using h.2

lemma evget_len_le (sp : SeqPtr) :
    (seqptr_evget sp).2.future.length ≤ sp.future.length := by
  unfold seqptr_evget
  split
  · exact le_refl _
  · rcases hf : sp.future with _ | ⟨c, rest⟩ <;> simp [hf]

lemma evget_ticlen (sp : SeqPtr) :
    seqptr_ticlen (seqptr_evget sp).2 = seqptr_ticlen sp := by
  unfold seqptr_ticlen
  rw [evget_spCells]

lemma evdel_stuck (sp : SeqPtr) (sl : Option (List State))
    (h : seqptr_evavail sp = false) :
    seqptr_evdel sp sl = (none, sp, sl) := by
  unfold seqptr_evdel
  have hg : (sp.delta != sp.posdelta || sp.posev.cmd == .evnull) = true := by
    by_cases hd : sp.delta = sp.posdelta
    · have hn : sp.posev.cmd = .evnull := by
        by_contra hne
        simp [seqptr_evavail, hd, hne] at h
      simp [hn]
    · simp [hd]
  simp [hg]

lemma evdel_step (sp : SeqPtr) (sl : List State) (c c2 : Cell) (rest2 : List Cell)
    (hf : sp.future = c :: c2 :: rest2) (hd : sp.delta = c.delta)
    (he : c.ev.cmd ≠ .evnull) :
    seqptr_evdel sp (some sl) =
      (some (statelist_update sl c.ev).1,
       { sp with future := { c2 with delta := c2.delta + c.delta } :: rest2 },
       some (statelist_update sl c.ev).2) := by
  unfold seqptr_evdel
  have hguard : (sp.delta != sp.posdelta || sp.posev.cmd == .evnull) = false := by
    simp [SeqPtr.posdelta, SeqPtr.posev, hf, hd, he]
  rw [hguard]
  simp [hf]

lemma evdel_tic (sp : SeqPtr) (sl : Option (List State)) :
    (seqptr_evdel sp sl).2.1.tic = sp.tic := by
  unfold seqptr_evdel
  split
  · rfl
  · rcases hf : sp.future with _ | ⟨c, rest⟩
    · rfl
    · rcases rest with _ | ⟨c2, rest2⟩ <;> simp [hf]

lemma evdel_delta (sp : SeqPtr) (sl : Option (List State)) :
    (seqptr_evdel sp sl).2.1.delta = sp.delta := by
  unfold seqptr_evdel
  split
  · rfl
  · rcases hf : sp.future with _ | ⟨c, rest⟩
    · rfl
    · rcases rest with _ | ⟨c2, rest2⟩ <;> simp [hf]

lemma evdel_ticlen (sp : SeqPtr) (sl : Option (List State)) :
    seqptr_ticlen (seqptr_evdel sp sl).2.1 = seqptr_ticlen sp := by
  unfold seqptr_evdel
  split
  · rfl
  · rcases hf : sp.future with _ | ⟨c, rest⟩
    · rfl
    · rcases rest with _ | ⟨c2, rest2⟩
      · simp [hf]
      · simp [hf, seqptr_ticlen, spCells, cellsTicLen_append, cellsTicLen_cons]
        omega

lemma evdel_rem (sp : SeqPtr) (sl : Option (List State)) :
    sp_rem (seqptr_evdel sp sl).2.1 = sp_rem sp := by
  unfold seqptr_evdel
  split
  · rfl
  · rcases hf : sp.future with _ | ⟨c, rest⟩
    · rfl
    · rcases rest with _ | ⟨c2, rest2⟩
      · simp [hf]
      · simp [hf, sp_rem, cellsTicLen_cons]
        omega

lemma evdel_inv (sp : SeqPtr) (sl : Option (List State))
    (h : sp.delta ≤ sp.posdelta) :
    (seqptr_evdel sp sl).2.1.delta ≤ (seqptr_evdel sp sl).2.1.posdelta := by
  unfold seqptr_evdel
  split
  · exact h
  · rcases hf : sp.future with _ | ⟨c, rest⟩
    · exact h
    · rcases rest with _ | ⟨c2, rest2⟩
      · simpa [hf] using h
      · have hp : sp.posdelta = c.delta := by simp [SeqPtr.posdelta, hf]
        simp [hf, SeqPtr.posdelta]
        omega

lemma evdel_wf (sp : SeqPtr) (sl : Option (List State))
    (h : cellsWF sp.future = true) :
    cellsWF (seqptr_evdel sp sl).2.1.future = true := by
  unfold seqptr_evdel
  split
  · exact h
  · rcases hf : sp.future with _ | ⟨c, rest⟩
    · exact h
    · rcases rest with _ | ⟨c2, rest2⟩
      · simpa [hf] using h
      · simp only [hf]
        simp only [cellsWF, hf, Bool.and_eq_true] at h
        simpa [cellsWF_set_head_delta] using h.2

lemma evdel_len_le (sp : SeqPtr) (sl : Option (List State)) :
    (seqptr_evdel sp sl).2.1.future.length ≤ sp.future.length := by
  unfold seqptr_evdel
  split
  · exact Nat.le_refl _
  · rcases hf : sp.future with _ | ⟨c, rest⟩
    · simp [hf]
    · rcases rest with _ | ⟨c2, rest2⟩ <;> simp [hf]

lemma evput_step (sp : SeqPtr) (e : Ev) (he : e.cmd ≠ .evnull) :
    ∃ sl, (seqptr_evput sp e).2 =
      { past := { id := sp.nextId, delta := sp.delta, ev := e } :: sp.past,
        future := (match sp.future with
                   | d :: rest => { d with delta := d.delta - sp.delta } :: rest
                   | [] => []),
        delta := 0, tic := sp.tic, statelist := sl, nextId := sp.nextId + 1 } := by
  unfold seqptr_evput seqptr_evget
  simp only [SeqPtr.posdelta, SeqPtr.posev]
  simp [he]

lemma evput_tic (sp : SeqPtr) (e : Ev) : (seqptr_evput sp e).2.tic = sp.tic := by
  unfold seqptr_evput
  rw [evget_tic]

lemma evput_ticlen (sp : SeqPtr) (e : Ev) (h : sp.delta ≤ sp.posdelta) :
    seqptr_ticlen (seqptr_evput sp e).2 = seqptr_ticlen sp := by
  unfold seqptr_evput
  rw [evget_ticlen]
  rcases hf : sp.future with _ | ⟨c, rest⟩
  · have h0 : sp.delta = 0 := by
      simpa [SeqPtr.posdelta, hf] using h
    simp [hf, seqptr_ticlen, spCells, cellsTicLen_append, cellsTicLen_cons,
      cellsTicLen_nil, h0]
  · have hp : sp.delta ≤ c.delta := by simpa [SeqPtr.posdelta, hf] using h
    simp [hf, seqptr_ticlen, spCells, cellsTicLen_append, cellsTicLen_cons,
      cellsTicLen_nil]
    omega

lemma evput_inv (sp : SeqPtr) (e : Ev) :
    (seqptr_evput sp e).2.delta ≤ (seqptr_evput sp e).2.posdelta := by
  unfold seqptr_evput seqptr_evget
  simp only [SeqPtr.posdelta, SeqPtr.posev]
  split
  · simp_all
  · simp

lemma ticskip_eq (sp : SeqPtr) (max : Nat) :
    seqptr_ticskip sp max =
      (min (sp.posdelta - sp.delta) max,
       if min (sp.posdelta - sp.delta) max > 0 then
         { sp with delta := sp.delta + min (sp.posdelta - sp.delta) max,
                   tic := sp.tic + min (sp.posdelta - sp.delta) max,
                   statelist := statelist_outdate sp.statelist }
       else sp) := by
  have hmin : (if sp.posdelta - sp.delta > max then max else sp.posdelta - sp.delta) =
      min (sp.posdelta - sp.delta) max := by
    rw [min_def]
    split <;> split <;> omega
  simp only [seqptr_ticskip, hmin]
  split <;> rfl

lemma ticskip_future (sp : SeqPtr) (max : Nat) :
    (seqptr_ticskip sp max).2.future = sp.future := by
  rw [ticskip_eq]
  split <;> rfl

lemma ticskip_spCells (sp : SeqPtr) (max : Nat) :
    spCells (seqptr_ticskip sp max).2 = spCells sp := by
  rw [ticskip_eq]
  split <;> rfl

lemma ticskip_delta (sp : SeqPtr) (max : Nat) :
    (seqptr_ticskip sp max).2.delta = sp.delta + (seqptr_ticskip sp max).1 := by
  rw [ticskip_eq]
  split <;> simp_all <;> omega

lemma ticskip_tic (sp : SeqPtr) (max : Nat) :
    (seqptr_ticskip sp max).2.tic = sp.tic + (seqptr_ticskip sp max).1 := by
  rw [ticskip_eq]
  split <;> simp_all <;> omega

lemma ticskip_fst (sp : SeqPtr) (max : Nat) :
    (seqptr_ticskip sp max).1 = min (sp.posdelta - sp.delta) max := by
  rw [ticskip_eq]

lemma ticdel_eq (sp : SeqPtr) (max : Nat) (slist : Option (List State)) :
    seqptr_ticdel sp max slist =
      (min (sp.posdelta - sp.delta) max,
       { sp with future :=
           (match sp.future with
            | c :: rest => { c with delta := c.delta - min (sp.posdelta - sp.delta) max } :: rest
            | [] => []) },
       if max > 0 then slist.map statelist_outdate else slist) := by
  have hmin : (if sp.posdelta - sp.delta > max then max else sp.posdelta - sp.delta) =
      min (sp.posdelta - sp.delta) max := by
    rw [min_def]
    split <;> split <;> omega
  simp only [seqptr_ticdel, hmin]
  cases slist
  · simp
  · simp
    split <;> rfl

lemma ticdel_ticlen (sp : SeqPtr) (max : Nat) (slist : Option (List State)) :
    seqptr_ticlen sp =
      seqptr_ticlen (seqptr_ticdel sp max slist).2.1 + (seqptr_ticdel sp max slist).1 := by
  rw [ticdel_eq]
  rcases hf : sp.future with _ | ⟨c, rest⟩
  · simp [hf, SeqPtr.posdelta, seqptr_ticlen, spCells]
  · have hp : sp.posdelta = c.delta := by simp [SeqPtr.posdelta, hf]
    simp [hf, seqptr_ticlen, spCells, cellsTicLen_append, cellsTicLen_cons, hp]
    omega

lemma ticdel_rem (sp : SeqPtr) (max : Nat) (slist : Option (List State)) :
    sp_rem sp = sp_rem (seqptr_ticdel sp max slist).2.1 + (seqptr_ticdel sp max slist).1 := by
  rw [ticdel_eq]
  rcases hf : sp.future with _ | ⟨c, rest⟩
  · simp [hf, SeqPtr.posdelta, sp_rem]
  · have hp : sp.posdelta = c.delta := by simp [SeqPtr.posdelta, hf]
    have hle : c.delta ≤ cellsTicLen (c :: rest) := by
      simp [cellsTicLen_cons]
    simp only [hf, sp_rem]
    simp [cellsTicLen_cons, hp]
    omega

lemma ticdel_delta (sp : SeqPtr) (max : Nat) (slist : Option (List State)) :
    (seqptr_ticdel sp max slist).2.1.delta = sp.delta := by
  rw [ticdel_eq]

lemma ticdel_tic (sp : SeqPtr) (max : Nat) (slist : Option (List State)) :
    (seqptr_ticdel sp max slist).2.1.tic = sp.tic := by
  rw [ticdel_eq]

lemma ticdel_inv (sp : SeqPtr) (max : Nat) (slist : Option (List State))
    (h : sp.delta ≤ sp.posdelta) :
    (seqptr_ticdel sp max slist).2.1.delta ≤ (seqptr_ticdel sp max slist).2.1.posdelta := by
  rw [ticdel_eq]
  rcases hf : sp.future with _ | ⟨c, rest⟩
  · simpa [hf, SeqPtr.posdelta] using h
  · have hp : sp.posdelta = c.delta := by simp [SeqPtr.posdelta, hf]
    simp only [hf, SeqPtr.posdelta]
    simp
    omega

lemma ticdel_future (sp : SeqPtr) (max : Nat) (slist : Option (List State)) :
    (seqptr_ticdel sp max slist).2.1.future =
      (match sp.future with
       | c :: rest => { c with delta := c.delta - min (sp.posdelta - sp.delta) max } :: rest
       | [] => []) := by
  rw [ticdel_eq]

lemma ticdel_wf (sp : SeqPtr) (max : Nat) (slist : Option (List State))
    (h : cellsWF sp.future = true) :
    cellsWF (seqptr_ticdel sp max slist).2.1.future = true := by
  rw [ticdel_future]
  rcases hf : sp.future with _ | ⟨c, rest⟩
  · simpa [hf] using h
  · simp only [hf]
    rw [cellsWF_set_head_delta]
    simpa [hf] using h

lemma ticdel_len (sp : SeqPtr) (max : Nat) (slist : Option (List State)) :
    (seqptr_ticdel sp max slist).2.1.future.length = sp.future.length := by
  rw [ticdel_eq]
  rcases hf : sp.future with _ | ⟨c, rest⟩ <;> simp [hf]

lemma ticput_eq (sp : SeqPtr) (n : Nat) :
    seqptr_ticput sp n =
      (if n > 0 then
        { sp with
          future :=
            (match sp.future with
             | c :: rest => { c with delta := c.delta + n } :: rest
             | [] => []),
          delta := sp.delta + n, tic := sp.tic + n,
          statelist := statelist_outdate sp.statelist }
       else sp) := by
  unfold seqptr_ticput
  split <;> rfl

lemma ticput_future (sp : SeqPtr) (n : Nat) :
    (seqptr_ticput sp n).future =
      (if n > 0 then
        (match sp.future with
         | c :: rest => { c with delta := c.delta + n } :: rest
         | [] => [])
       else sp.future) := by
  rw [ticput_eq]
  split <;> rfl

lemma ticput_delta (sp : SeqPtr) (n : Nat) :
    (seqptr_ticput sp n).delta = sp.delta + n := by
  rw [ticput_eq]
  split
  · rfl
  · omega

lemma ticput_tic (sp : SeqPtr) (n : Nat) :
    (seqptr_ticput sp n).tic = sp.tic + n := by
  rw [ticput_eq]
  split
  · rfl
  · omega

lemma ticput_posdelta (sp : SeqPtr) (n : Nat) (hfut : sp.future ≠ []) :
    (seqptr_ticput sp n).posdelta = sp.posdelta + n := by
  rw [ticput_eq]
  rcases hf : sp.future with _ | ⟨c, rest⟩
  · exact absurd hf hfut
  · split
    · simp [SeqPtr.posdelta, hf]
    · have : n = 0 := by omega
      simp [this]

lemma ticput_ticlen (sp : SeqPtr) (n : Nat) (hfut : sp.future ≠ []) :
    seqptr_ticlen (seqptr_ticput sp n) = seqptr_ticlen sp + n := by
  rw [ticput_eq]
  rcases hf : sp.future with _ | ⟨c, rest⟩
  · exact absurd hf hfut
  · split
    · simp [hf, seqptr_ticlen, spCells, cellsTicLen_append, cellsTicLen_cons]
      omega
    · have : n = 0 := by omega
      simp [this]

lemma ticput_future_len (sp : SeqPtr) (n : Nat) :
    (seqptr_ticput sp n).future.length = sp.future.length := by
  rw [ticput_future]
  rcases hf : sp.future with _ | ⟨c, rest⟩ <;> split <;> simp [hf]

lemma ticput_wf (sp : SeqPtr) (n : Nat) (h : cellsWF sp.future = true) :
    cellsWF (seqptr_ticput sp n).future = true := by
  rw [ticput_future]
  rcases hf : sp.future with _ | ⟨c, rest⟩
  · split <;> simpa [hf] using h
  · split
    · simp only [hf]
      rw [cellsWF_set_head_delta]
      simpa [hf] using h
    · simpa [hf] using h

lemma ticput_inv (sp : SeqPtr) (n : Nat) (h : sp.delta ≤ sp.posdelta)
    (hfut : sp.future ≠ []) :
    (seqptr_ticput sp n).delta ≤ (seqptr_ticput sp n).posdelta := by
  rw [ticput_posdelta sp n hfut, ticput_delta]
  omega

/-- C8: from any cursor satisfying the §3 invariant `delta ≤ pos->delta`
(and standing on a cell, as every C cursor does: `future ≠ []`), each of
the six primitives re-establishes `delta ≤ pos->delta`, and none of them
decreases the absolute tic. -/
theorem C8_primitives_keep_invariant (sp : SeqPtr) (e : Ev) (n max : Nat)
    (slist : Option (List State)) (h : sp.delta ≤ sp.posdelta)
    (hfut : sp.future ≠ []) :
    ((seqptr_evget sp).2.delta ≤ (seqptr_evget sp).2.posdelta ∧
      sp.tic ≤ (seqptr_evget sp).2.tic) ∧
    ((seqptr_evput sp e).2.delta ≤ (seqptr_evput sp e).2.posdelta ∧
      sp.tic ≤ (seqptr_evput sp e).2.tic) ∧
    ((seqptr_evdel sp slist).2.1.delta ≤ (seqptr_evdel sp slist).2.1.posdelta ∧
      sp.tic ≤ (seqptr_evdel sp slist).2.1.tic) ∧
    ((seqptr_ticskip sp max).2.delta ≤ (seqptr_ticskip sp max).2.posdelta ∧
      sp.tic ≤ (seqptr_ticskip sp max).2.tic) ∧
    ((seqptr_ticdel sp max slist).2.1.delta ≤ (seqptr_ticdel sp max slist).2.1.posdelta ∧
      sp.tic ≤ (seqptr_ticdel sp max slist).2.1.tic) ∧
    ((seqptr_ticput sp n).delta ≤ (seqptr_ticput sp n).posdelta ∧
      sp.tic ≤ (seqptr_ticput sp n).tic) := by
  refine ⟨⟨evget_inv sp h, ?_⟩, ⟨evput_inv sp e, ?_⟩, ⟨evdel_inv sp slist h, ?_⟩,
    ⟨?_, ?_⟩, ⟨ticdel_inv sp max slist h, ?_⟩, ⟨ticput_inv sp n h hfut, ?_⟩⟩
  · rw [evget_tic]
  · rw [evput_tic]
  · rw [evdel_tic]
  · have hp : (seqptr_ticskip sp max).2.posdelta = sp.posdelta := by
      unfold SeqPtr.posdelta
      rw [ticskip_future]
    rw [hp, ticskip_delta, ticskip_fst]
    omega
  · rw [ticskip_tic]
    omega
  · rw [ticdel_tic]
  · rw [ticput_tic]
    omega

/-- Witness for `C8_primitives_keep_invariant`. -/
theorem C8_primitives_keep_invariant_witness :
    exSeqPtr.delta ≤ exSeqPtr.posdelta ∧ exSeqPtr.future ≠ [] ∧
    (seqptr_ticskip exSeqPtr 3).2.delta ≤ (seqptr_ticskip exSeqPtr 3).2.posdelta := by
  refine ⟨by decide, by decide, ?_⟩
  exact (C8_primitives_keep_invariant exSeqPtr exEvCtl 2 3 none (by decide)
    (by decide)).2.2.2.1.1

/-- C10: `track_timeinfo` writes the `abs` out parameter exactly when the
computed absolute tic (`track_findmeasure` of the same measure) is
nonzero, and then writes that tic; for measure 0 the parameter is always
left unwritten; the signature and tempo outputs are always produced, with
the defaults on a track carrying no TIMESIG/TEMPO state (such as the
empty track). -/
theorem C10_timeinfo_abs_only_when_nonzero (t : Track) (meas : Nat) :
    ((track_timeinfo t meas).abs = none ↔ track_findmeasure t meas = 0) ∧
    ((track_timeinfo t meas).abs ≠ none →
      (track_timeinfo t meas).abs = some (track_findmeasure t meas)) ∧
    (track_timeinfo t 0).abs = none ∧
    (track_timeinfo track_init meas).bpm = DEFAULT_BPM ∧
    (track_timeinfo track_init meas).tpb = DEFAULT_TPB ∧
    (track_timeinfo track_init meas).usec24 = DEFAULT_USEC24 := by
  have habs : ∀ m, (track_timeinfo t m).abs =
      (if track_findmeasure t m ≠ 0 then some (track_findmeasure t m) else none) := by
    intro m
    unfold track_timeinfo track_findmeasure
    split <;> simp_all
  have hempty : ∀ m, seqptr_skipmeasure (seqptr_init track_init) m =
      (if m = 0 then 0 else (m - 1) * (DEFAULT_BPM * DEFAULT_TPB) + DEFAULT_BPM * DEFAULT_TPB,
       seqptr_init track_init) := by
    intro m
    cases m with
    | zero => simp [seqptr_skipmeasure]
    | succ k =>
      simp only [seqptr_skipmeasure]
      norm_num
      rfl
  refine ⟨?_, ?_, ?_, ?_, ?_, ?_⟩
  · rw [habs]
    split <;> simp_all
  · rw [habs]
    split <;> simp_all
  · rw [habs]
    simp [track_findmeasure, seqptr_skipmeasure, seqptr_init]
  · simp only [track_timeinfo]
    rw [hempty]
    rfl
  · simp only [track_timeinfo]
    rw [hempty]
    rfl
  · simp only [track_timeinfo]
    rw [hempty]
    rfl

lemma ticdel_posdelta (sp : SeqPtr) (max : Nat) (slist : Option (List State)) :
    (seqptr_ticdel sp max slist).2.1.posdelta = sp.posdelta - (seqptr_ticdel sp max slist).1 := by
  rw [ticdel_eq]
  rcases hf : sp.future with _ | ⟨c, rest⟩
  · simp [SeqPtr.posdelta, hf]
  · have hp : sp.posdelta = c.delta := by simp [SeqPtr.posdelta, hf]
    simp [SeqPtr.posdelta, hf, hp]

lemma ticdel_fst (sp : SeqPtr) (max : Nat) (slist : Option (List State)) :
    (seqptr_ticdel sp max slist).1 = min (sp.posdelta - sp.delta) max := by
  rw [ticdel_eq]

lemma gap_le_rem (sp : SeqPtr) : sp.posdelta - sp.delta ≤ sp_rem sp := by
  have := posdelta_le_ticlen sp
  unfold sp_rem
  omega

lemma seqptr_track_ticlen (sp : SeqPtr) :
    trackTicLen (seqptr_track sp) = seqptr_ticlen sp := rfl

lemma rem_eq_zero_of_eot (sp : SeqPtr) (hwf : cellsWF sp.future = true)
    (he : seqptr_eot sp = true) : sp_rem sp = 0 := by
  unfold seqptr_eot at he
  rcases hf : sp.future with _ | ⟨c, rest⟩
  · simp [sp_rem, hf, cellsTicLen_nil]
  · rcases rest with _ | ⟨c2, rest2⟩
    · have hd : sp.delta = c.delta := by
        simp [SeqPtr.posdelta, SeqPtr.posev, hf] at he
        exact he.2
      simp [sp_rem, hf, cellsTicLen_cons, cellsTicLen_nil, hd]
    · exfalso
      simp [SeqPtr.posev, hf] at he
      simp [cellsWF, hf, he.1] at hwf

/-- Effect of the `while (seqptr_evget(sp));` drain on a cursor: it only
shifts cells from future to past. -/
lemma evget_all_run : ∀ (fuel : Nat) (sp : SeqPtr),
    sp.delta ≤ sp.posdelta → cellsWF sp.future = true →
    (spCells (seqptr_evget_all fuel sp) = spCells sp ∧
     (seqptr_evget_all fuel sp).tic = sp.tic ∧
     sp_rem (seqptr_evget_all fuel sp) = sp_rem sp ∧
     (seqptr_evget_all fuel sp).delta ≤ (seqptr_evget_all fuel sp).posdelta ∧
     cellsWF (seqptr_evget_all fuel sp).future = true ∧
     (seqptr_evget_all fuel sp).future.length ≤ sp.future.length ∧
     ((seqptr_evget_all fuel sp).future.length = sp.future.length →
       seqptr_evget_all fuel sp = sp) ∧
     (seqptr_evget_all fuel sp = sp → fuel = 0 ∨ (seqptr_evget sp).1 = none)) := by
  intro fuel
  induction fuel with
  | zero =>
    intro sp hinv hwf
    exact ⟨rfl, rfl, rfl, hinv, hwf, Nat.le_refl _, fun _ => rfl, fun _ => Or.inl rfl⟩
  | succ k ih =>
    intro sp hinv hwf
    rcases hr : seqptr_evget sp with ⟨st?, sp₂⟩
    have h2 : sp₂ = (seqptr_evget sp).2 := by rw [hr]
    cases st? with
    | none =>
      have hsp : sp₂ = sp := by
        rw [h2]
        exact evget_none_eq sp (by rw [hr])
      have hall : seqptr_evget_all (k + 1) sp = sp := by
        simp only [seqptr_evget_all, hr, hsp]
      rw [hall]
      exact ⟨rfl, rfl, rfl, hinv, hwf, Nat.le_refl _, fun _ => rfl,
        fun _ => Or.inr (by simp [hr])⟩
    | some st =>
      have hlen : sp₂.future.length + 1 = sp.future.length := by
        rw [h2]
        exact evget_some_len sp st (by rw [hr])
      have hinv2 : sp₂.delta ≤ sp₂.posdelta := by
        rw [h2]; exact evget_inv sp hinv
      have hwf2 : cellsWF sp₂.future = true := by
        rw [h2]; exact evget_wf sp hwf
      obtain ⟨ha, hb, hc, hd, he, hf, _, _⟩ := ih sp₂ hinv2 hwf2
      simp only [seqptr_evget_all, hr]
      refine ⟨?_, ?_, ?_, hd, he, ?_, ?_, ?_⟩
      · rw [ha, h2, evget_spCells]
      · rw [hb, h2, evget_tic]
      · rw [hc, h2, evget_rem]
      · omega
      · intro heq
        omega
      · intro heq
        exfalso
        have : (seqptr_evget_all k sp₂).future.length = sp.future.length := by rw [heq]
        omega

/-- Effect of the `seqptr_skip` loop with sufficient fuel: the cursor moves
forward by exactly `n` minus the returned residual, the residual is
nonzero only at end-of-track (no tics remain), and the track cells are
untouched. -/
lemma skip_go_run : ∀ (fuel : Nat) (sp : SeqPtr) (n : Nat),
    sp.delta ≤ sp.posdelta → cellsWF sp.future = true →
    fuel ≥ sp.future.length + n + 1 →
    (spCells (seqptr_skip_go fuel sp n).2 = spCells sp ∧
     (seqptr_skip_go fuel sp n).1 ≤ n ∧
     (seqptr_skip_go fuel sp n).2.tic = sp.tic + (n - (seqptr_skip_go fuel sp n).1) ∧
     (seqptr_skip_go fuel sp n).2.tic + sp_rem (seqptr_skip_go fuel sp n).2 =
       sp.tic + sp_rem sp ∧
     (seqptr_skip_go fuel sp n).2.delta ≤ (seqptr_skip_go fuel sp n).2.posdelta ∧
     cellsWF (seqptr_skip_go fuel sp n).2.future = true ∧
     ((seqptr_skip_go fuel sp n).1 > 0 → sp_rem (seqptr_skip_go fuel sp n).2 = 0)) := by
  intro fuel
  induction fuel with
  | zero =>
    intro sp n _ _ hfuel
    omega
  | succ k ih =>
    intro sp n hinv hwf hfuel
    by_cases hstop : (seqptr_eot sp || n == 0) = true
    · have hr : seqptr_skip_go (k + 1) sp n = (n, sp) := by
        simp only [seqptr_skip_go, hstop]
        rfl
      rw [hr]
      refine ⟨rfl, Nat.le_refl _, by simp, rfl, hinv, hwf, ?_⟩
      intro hn
      rcases Bool.or_eq_true _ _ |>.mp hstop with he | hn0
      · exact rem_eq_zero_of_eot sp hwf he
      · exfalso
        have : n = 0 := by simpa using hn0
        omega
    · have hr : seqptr_skip_go (k + 1) sp n =
          seqptr_skip_go k (seqptr_ticskip (seqptr_evget_all (sp.future.length + 1) sp) n).2
            (n - (seqptr_ticskip (seqptr_evget_all (sp.future.length + 1) sp) n).1) := by
        simp only [seqptr_skip_go, hstop]
        rfl
      obtain ⟨hD1, hD2, hD3, hD4, hD5, hD6, hD7, hD8⟩ :=
        evget_all_run (sp.future.length + 1) sp hinv hwf
      obtain ⟨hne, hn0⟩ : ¬seqptr_eot sp = true ∧ n ≠ 0 := by
        constructor
        · intro hc
          exact hstop (by simp [hc])
        · intro hc
          exact hstop (by simp [hc])
      set sp₁ := seqptr_evget_all (sp.future.length + 1) sp with hsp₁
      set moved := (seqptr_ticskip sp₁ n).1 with hmoved
      set sp₂ := (seqptr_ticskip sp₁ n).2 with hsp₂
      have hmval : moved = min (sp₁.posdelta - sp₁.delta) n := ticskip_fst sp₁ n
      have hfut2 : sp₂.future = sp₁.future := ticskip_future sp₁ n
      have hpos2 : sp₂.posdelta = sp₁.posdelta := by
        unfold SeqPtr.posdelta
        rw [hfut2]
      have hdelta2 : sp₂.delta = sp₁.delta + moved := ticskip_delta sp₁ n
      have htic2 : sp₂.tic = sp₁.tic + moved := ticskip_tic sp₁ n
      have hinv2 : sp₂.delta ≤ sp₂.posdelta := by
        rw [hdelta2, hpos2]
        omega
      have hwf2 : cellsWF sp₂.future = true := by rw [hfut2]; exact hD5
      have hrem2 : sp_rem sp₂ + moved = sp_rem sp₁ := by
        have hple := posdelta_le_ticlen sp₁
        unfold sp_rem
        rw [hfut2, hdelta2]
        omega
      have hprog : sp₂.future.length + (n - moved) + 1 ≤ k := by
        by_cases hL : sp₁.future.length = sp.future.length
        · have hsp1_eq : sp₁ = sp := hD7 hL
          have hnone : (seqptr_evget sp).1 = none := by
            rcases hD8 hsp1_eq with h0 | hn
            · omega
            · exact hn
          have hgap : 0 < sp.posdelta - sp.delta := by
            rcases Nat.lt_or_ge sp.delta sp.posdelta with hlt | hge
            · omega
            · exfalso
              have hdp : sp.delta = sp.posdelta := le_antisymm hinv hge
              have : sp.posev.cmd = .evnull := by
                unfold seqptr_evget at hnone
                split at hnone
                · rename_i hcond
                  rcases (by simpa [bne_iff_ne, hdp] using hcond :
                      sp.delta ≠ sp.posdelta ∨ sp.posev.cmd = .evnull) with hc | hc
                  · exact absurd hdp hc
                  · exact hc
                · rcases hf : sp.future with _ | ⟨c, rest⟩
                  · simp [SeqPtr.posev, hf]
                  · simp [hf] at hnone
              exact hne (by simp [seqptr_eot, this, hdp])
          have hmpos : 0 < moved := by
            rw [hmval, hsp1_eq]
            have : 0 < n := Nat.pos_of_ne_zero hn0
            omega
          have : sp₂.future.length = sp.future.length := by
            rw [hfut2, hL]
          omega
        · have hlt : sp₁.future.length < sp.future.length := by
            omega
          have : sp₂.future.length = sp₁.future.length := by rw [hfut2]
          omega
      obtain ⟨hI1, hI2, hI3, hI4, hI5, hI6, hI7⟩ := ih sp₂ (n - moved) hinv2 hwf2 hprog
      rw [hr]
      have hmle : moved ≤ n := by
        rw [hmval]
        omega
      refine ⟨?_, ?_, ?_, ?_, hI5, hI6, hI7⟩
      · rw [hI1]
        have : spCells sp₂ = spCells sp₁ := by
          rw [hsp₂]
          exact ticskip_spCells sp₁ n
        rw [this, hD1]
      · omega
      · rw [hI3, htic2, hD2]
        omega
      · have := hI4
        rw [htic2, hD2] at this
        omega

/-- Effect of `seqptr_skipmeasure`: a read-only walk; the residual is
nonzero only when the end of the track was reached (no tics remain). -/
lemma skipmeasure_run : ∀ (m : Nat) (sp : SeqPtr),
    sp.delta ≤ sp.posdelta → cellsWF sp.future = true →
    (spCells (seqptr_skipmeasure sp m).2 = spCells sp ∧
     sp.tic ≤ (seqptr_skipmeasure sp m).2.tic ∧
     (seqptr_skipmeasure sp m).2.tic + sp_rem (seqptr_skipmeasure sp m).2 =
       sp.tic + sp_rem sp ∧
     (seqptr_skipmeasure sp m).2.delta ≤ (seqptr_skipmeasure sp m).2.posdelta ∧
     cellsWF (seqptr_skipmeasure sp m).2.future = true ∧
     ((seqptr_skipmeasure sp m).1 > 0 → sp_rem (seqptr_skipmeasure sp m).2 = 0)) := by
  intro m
  induction m with
  | zero =>
    intro sp hinv hwf
    refine ⟨rfl, Nat.le_refl _, rfl, hinv, hwf, ?_⟩
    intro hc
    simp [seqptr_skipmeasure] at hc
  | succ k ih =>
    intro sp hinv hwf
    obtain ⟨hD1, hD2, hD3, hD4, hD5, hD6, hD7, hD8⟩ :=
      evget_all_run (sp.future.length + 1) sp hinv hwf
    set sp₁ := seqptr_evget_all (sp.future.length + 1) sp with hsp₁
    set tpm := (seqptr_getsign sp₁).bpm * (seqptr_getsign sp₁).tpb with htpm
    obtain ⟨hS1, hS2, hS3, hS4, hS5, hS6, hS7⟩ :=
      skip_go_run (sp₁.future.length + tpm + 1) sp₁ tpm hD4 hD5 (Nat.le_refl _)
    have hskip : seqptr_skip sp₁ tpm = seqptr_skip_go (sp₁.future.length + tpm + 1) sp₁ tpm := rfl
    set r := seqptr_skip_go (sp₁.future.length + tpm + 1) sp₁ tpm with hrdef
    have hstep : seqptr_skipmeasure sp (k + 1) =
        (if r.1 > 0 then (k * tpm + r.1, r.2) else seqptr_skipmeasure r.2 k) := by
      simp only [seqptr_skipmeasure]
      rfl
    rw [hstep]
    by_cases hpos : r.1 > 0
    · rw [if_pos hpos]
      refine ⟨by rw [hS1, hD1], ?_, ?_, hS5, hS6, ?_⟩
      · show sp.tic ≤ r.2.tic
        have := hS3
        rw [hD2] at this
        omega
      · show r.2.tic + sp_rem r.2 = sp.tic + sp_rem sp
        rw [hS4, hD3, hD2]
      · intro _
        exact hS7 hpos
    · rw [if_neg hpos]
      obtain ⟨hI1, hI2, hI3, hI4, hI5, hI6⟩ := ih r.2 hS5 hS6
      refine ⟨by rw [hI1, hS1, hD1], ?_, ?_, hI4, hI5, hI6⟩
      · have ht := hS3
        rw [hD2] at ht
        omega
      · rw [hI3, hS4, hD3, hD2]

lemma posdelta_pos_future (sp : SeqPtr) (h : 0 < sp.posdelta) : sp.future ≠ [] := by
  intro hc
  rw [show sp.posdelta = 0 by simp [SeqPtr.posdelta, hc]] at h
  omega

/-- Unfolding of one iteration of the `track_timerm` deletion loop. -/
lemma timerm_del_succ (k : Nat) (sp : SeqPtr) (sl : List State) (len : Nat) :
    timerm_del (k + 1) sp sl len =
      (let r := seqptr_ticdel sp len (some sl)
       let len2 := len - r.1
       let sp2 := r.2.1
       let sl2 := r.2.2.getD sl
       if len2 == 0 then (sp2, sl2, 0)
       else if !(seqptr_evavail sp2) then (sp2, sl2, len2)
       else
         let rr := seqptr_evdel sp2 (some sl2)
         match rr.1 with
         | none => (rr.2.1, sl2, len2)
         | some st =>
           timerm_del k rr.2.1
             (statelist_replace (rr.2.2.getD sl2) { st with tag := 0 }) len2) := rfl

/-- Effect of the deletion loop of `track_timerm` with sufficient fuel:
when `len` tics remain ahead of the cursor, it removes exactly `len` tics
from the track. -/
lemma timerm_del_run : ∀ (fuel : Nat) (sp : SeqPtr) (sl : List State) (len : Nat),
    sp.delta ≤ sp.posdelta → cellsWF sp.future = true →
    len ≤ sp_rem sp → fuel ≥ sp.future.length + 1 →
    ((timerm_del fuel sp sl len).2.2 = 0 ∧
     seqptr_ticlen (timerm_del fuel sp sl len).1 + len = seqptr_ticlen sp ∧
     (timerm_del fuel sp sl len).1.delta ≤ (timerm_del fuel sp sl len).1.posdelta ∧
     cellsWF (timerm_del fuel sp sl len).1.future = true) := by
  intro fuel
  induction fuel with
  | zero =>
    intro sp sl len _ _ _ hfuel
    omega
  | succ k ih =>
    intro sp sl len hinv hwf hlen hfuel
    rw [timerm_del_succ]
    set r := seqptr_ticdel sp len (some sl) with hrdef
    simp only []
    have hn_min : r.1 = min (sp.posdelta - sp.delta) len := ticdel_fst sp len (some sl)
    have hn_ticlen : seqptr_ticlen r.2.1 + r.1 = seqptr_ticlen sp :=
      (ticdel_ticlen sp len (some sl)).symm
    have hn_rem : sp_rem r.2.1 + r.1 = sp_rem sp :=
      (ticdel_rem sp len (some sl)).symm
    have hn_inv : r.2.1.delta ≤ r.2.1.posdelta := ticdel_inv sp len (some sl) hinv
    have hn_wf : cellsWF r.2.1.future = true := ticdel_wf sp len (some sl) hwf
    have hn_delta : r.2.1.delta = sp.delta := ticdel_delta sp len (some sl)
    have hn_pos : r.2.1.posdelta = sp.posdelta - r.1 := ticdel_posdelta sp len (some sl)
    have hn_len : r.2.1.future.length = sp.future.length := ticdel_len sp len (some sl)
    by_cases hz : len - r.1 = 0
    · rw [if_pos (by simpa using hz)]
      have hr1 : r.1 = len := by
        rw [hn_min] at hz ⊢
        omega
      refine ⟨rfl, ?_, hn_inv, hn_wf⟩
      show seqptr_ticlen r.2.1 + len = seqptr_ticlen sp
      omega
    · rw [if_neg (by simpa using hz)]
      have hgap : r.1 = sp.posdelta - sp.delta := by
        rw [hn_min] at hz ⊢
        omega
      have hposd : r.2.1.posdelta = r.2.1.delta := by
        rw [hn_pos, hn_delta, hgap]
        omega
      by_cases hav : seqptr_evavail r.2.1 = true
      · rw [if_neg (by simp [hav] : ¬(!seqptr_evavail r.2.1) = true)]
        have hne : r.2.1.posev.cmd ≠ .evnull := by
          unfold seqptr_evavail at hav
          rcases Bool.and_eq_true _ _ |>.mp hav with ⟨_, h2⟩
          simpa using h2
        rcases hf2 : r.2.1.future with _ | ⟨c, rest⟩
        · exfalso
          apply hne
          simp [SeqPtr.posev, hf2]
        · rcases rest with _ | ⟨c2, rest2⟩
          · exfalso
            have hh := hn_wf
            rw [hf2] at hh
            simp [cellsWF] at hh
            exact hne (by simp [SeqPtr.posev, hf2, hh])
          · have hd2 : r.2.1.delta = c.delta := by
              have : r.2.1.posdelta = c.delta := by simp [SeqPtr.posdelta, hf2]
              rw [← hposd, this]
            have hcne : c.ev.cmd ≠ .evnull := by
              intro hc
              exact hne (by simp [SeqPtr.posev, hf2, hc])
            rw [evdel_step r.2.1 (r.2.2.getD sl) c c2 rest2 hf2 hd2 hcne]
            simp only []
            set spx : SeqPtr := { r.2.1 with
              future := { c2 with delta := c2.delta + c.delta } :: rest2 } with hspx
            have hcd : ({ c2 with delta := c2.delta + c.delta } : Cell).delta =
                c2.delta + c.delta := rfl
            have hx_delta : spx.delta = r.2.1.delta := rfl
            have hx_posdelta : spx.posdelta = c2.delta + c.delta := rfl
            have hx_inv : spx.delta ≤ spx.posdelta := by
              rw [hx_delta, hx_posdelta, hd2]
              omega
            have hx_future : spx.future = { c2 with delta := c2.delta + c.delta } :: rest2 := rfl
            have hx_wf : cellsWF spx.future = true := by
              have hh := hn_wf
              rw [hf2] at hh
              simp only [cellsWF, Bool.and_eq_true] at hh
              rw [hx_future, cellsWF_set_head_delta]
              exact hh.2
            have hx_cells : spCells spx =
                r.2.1.past.reverse ++ ({ c2 with delta := c2.delta + c.delta } :: rest2) := rfl
            have hold_cells : spCells r.2.1 = r.2.1.past.reverse ++ (c :: c2 :: rest2) := by
              unfold spCells
              rw [hf2]
            have hx_ticlen : seqptr_ticlen spx = seqptr_ticlen r.2.1 := by
              unfold seqptr_ticlen
              rw [hx_cells, hold_cells, cellsTicLen_append, cellsTicLen_append,
                cellsTicLen_cons, cellsTicLen_cons, cellsTicLen_cons, hcd]
              omega
            have hx_rem : sp_rem spx = sp_rem r.2.1 := by
              unfold sp_rem
              rw [hx_future, hf2, hx_delta, cellsTicLen_cons, cellsTicLen_cons,
                cellsTicLen_cons, hcd]
              omega
            have hx_len : spx.future.length + 1 = r.2.1.future.length := by
              rw [hx_future, hf2]
              simp
            have hx_hlen : len - r.1 ≤ sp_rem spx := by
              rw [hx_rem]
              omega
            have hx_fuel : k ≥ spx.future.length + 1 := by
              omega
            have hgen : ∀ sl' : List State,
                (timerm_del k spx sl' (len - r.1)).2.2 = 0 ∧
                seqptr_ticlen (timerm_del k spx sl' (len - r.1)).1 + len =
                  seqptr_ticlen sp ∧
                (timerm_del k spx sl' (len - r.1)).1.delta ≤
                  (timerm_del k spx sl' (len - r.1)).1.posdelta ∧
                cellsWF (timerm_del k spx sl' (len - r.1)).1.future = true := by
              intro sl'
              obtain ⟨hI1, hI2, hI3, hI4⟩ :=
                ih spx sl' (len - r.1) hx_inv hx_wf hx_hlen hx_fuel
              refine ⟨hI1, ?_, hI3, hI4⟩
              rw [hx_ticlen] at hI2
              omega
            exact hgen _
      · exfalso
        have heot : seqptr_eot r.2.1 = true := by
          unfold seqptr_eot
          have hnull : r.2.1.posev.cmd = .evnull := by
            by_contra hc
            have : (r.2.1.posdelta == r.2.1.delta && r.2.1.posev.cmd != .evnull) = true := by
              simp [hposd, hc]
            rw [seqptr_evavail] at hav
            exact hav this
          simp [hnull, hposd]
        have := rem_eq_zero_of_eot r.2.1 hn_wf heot
        omega

/-- Unfolding of one iteration of the "process the next tic" loop. -/
lemma timerm_nexttic_succ (k : Nat) (sp : SeqPtr) (sl : List State) :
    timerm_nexttic (k + 1) sp sl =
      (if !(seqptr_evavail sp) then (sp, sl)
       else
         let r := seqptr_evdel sp (some sl)
         match r.1 with
         | none => (r.2.1, sl)
         | some st =>
           let sp2 := r.2.1
           let sl2 := r.2.2.getD sl
           let sp3 :=
             match statelist_lookup sp2.statelist st.ev with
             | none => (seqptr_evput sp2 st.ev).2
             | some ost =>
               if !(state_eq ost st.ev) then (seqptr_evput sp2 st.ev).2 else sp2
           timerm_nexttic k sp3 (statelist_replace sl2 { st with tag := 1 })) := rfl

/-- The "process the next tic" loop of `track_timerm` preserves the total
tic length and the cursor invariant. -/
lemma timerm_nexttic_run : ∀ (fuel : Nat) (sp : SeqPtr) (sl : List State),
    sp.delta ≤ sp.posdelta →
    (seqptr_ticlen (timerm_nexttic fuel sp sl).1 = seqptr_ticlen sp ∧
     (timerm_nexttic fuel sp sl).1.delta ≤ (timerm_nexttic fuel sp sl).1.posdelta) := by
  intro fuel
  induction fuel with
  | zero =>
    intro sp sl hinv
    exact ⟨rfl, hinv⟩
  | succ k ih =>
    intro sp sl hinv
    rw [timerm_nexttic_succ]
    by_cases hav : seqptr_evavail sp = true
    · rw [if_neg (by simp [hav] : ¬(!seqptr_evavail sp) = true)]
      rcases hevdel : seqptr_evdel sp (some sl) with ⟨st?, sp₂, sl₂⟩
      have ht : seqptr_ticlen sp₂ = seqptr_ticlen sp := by
        have h := evdel_ticlen sp (some sl)
        rw [hevdel] at h
        exact h
      have hi : sp₂.delta ≤ sp₂.posdelta := by
        have h := evdel_inv sp (some sl) hinv
        rw [hevdel] at h
        exact h
      cases st? with
      | none =>
        exact ⟨ht, hi⟩
      | some st =>
        simp only []
        rcases hlk : statelist_lookup sp₂.statelist st.ev with _ | ost
        · have hput_t : seqptr_ticlen (seqptr_evput sp₂ st.ev).2 = seqptr_ticlen sp₂ :=
            evput_ticlen sp₂ st.ev hi
          have hput_i := evput_inv sp₂ st.ev
          have hgen : ∀ sl' : List State,
              seqptr_ticlen (timerm_nexttic k (seqptr_evput sp₂ st.ev).2 sl').1 =
                seqptr_ticlen sp ∧
              (timerm_nexttic k (seqptr_evput sp₂ st.ev).2 sl').1.delta ≤
                (timerm_nexttic k (seqptr_evput sp₂ st.ev).2 sl').1.posdelta := by
            intro sl'
            obtain ⟨hA, hB⟩ := ih (seqptr_evput sp₂ st.ev).2 sl' hput_i
            exact ⟨by rw [hA, hput_t, ht], hB⟩
          exact hgen _
        · simp only []
          by_cases heq : state_eq ost st.ev = true
          · rw [if_neg (by simp [heq] : ¬(!state_eq ost st.ev) = true)]
            have hgen : ∀ sl' : List State,
                seqptr_ticlen (timerm_nexttic k sp₂ sl').1 = seqptr_ticlen sp ∧
                (timerm_nexttic k sp₂ sl').1.delta ≤
                  (timerm_nexttic k sp₂ sl').1.posdelta := by
              intro sl'
              obtain ⟨hA, hB⟩ := ih sp₂ sl' hi
              exact ⟨by rw [hA, ht], hB⟩
            exact hgen _
          · rw [if_pos (by simp [heq] : (!state_eq ost st.ev) = true)]
            have hput_t : seqptr_ticlen (seqptr_evput sp₂ st.ev).2 = seqptr_ticlen sp₂ :=
              evput_ticlen sp₂ st.ev hi
            have hput_i := evput_inv sp₂ st.ev
            have hgen : ∀ sl' : List State,
                seqptr_ticlen (timerm_nexttic k (seqptr_evput sp₂ st.ev).2 sl').1 =
                  seqptr_ticlen sp ∧
                (timerm_nexttic k (seqptr_evput sp₂ st.ev).2 sl').1.delta ≤
                  (timerm_nexttic k (seqptr_evput sp₂ st.ev).2 sl').1.posdelta := by
              intro sl'
              obtain ⟨hA, hB⟩ := ih (seqptr_evput sp₂ st.ev).2 sl' hput_i
              exact ⟨by rw [hA, hput_t, ht], hB⟩
            exact hgen _
    · rw [if_pos (by simp [hav] : (!seqptr_evavail sp) = true)]
      exact ⟨rfl, hinv⟩

/-- The restore loop of `track_timerm` preserves the total tic length and
the cursor invariant. -/
lemma timerm_restore_run : ∀ (l : List State) (sp : SeqPtr),
    sp.delta ≤ sp.posdelta →
    (seqptr_ticlen (timerm_restore_go l sp).1 = seqptr_ticlen sp ∧
     (timerm_restore_go l sp).1.delta ≤ (timerm_restore_go l sp).1.posdelta) := by
  intro l
  induction l with
  | nil =>
    intro sp hinv
    exact ⟨rfl, hinv⟩
  | cons st rest ih =>
    intro sp hinv
    show (seqptr_ticlen (timerm_restore_go (st :: rest) sp).1 = seqptr_ticlen sp ∧ _)
    by_cases htag : (st.tag == 0) = true
    · have hstep : timerm_restore_go (st :: rest) sp =
          (let sp2 :=
             match statelist_lookup sp.statelist st.ev with
             | none => (seqptr_evput sp st.ev).2
             | some ost =>
               if !(state_eq ost st.ev) then (seqptr_evput sp st.ev).2 else sp
           let r := timerm_restore_go rest sp2
           (r.1, { st with tag := 1 } :: r.2)) := by
        simp only [timerm_restore_go, htag]
        rfl
      rw [hstep]
      simp only []
      rcases hlk : statelist_lookup sp.statelist st.ev with _ | ost
      · have hput_t := evput_ticlen sp st.ev hinv
        have hput_i := evput_inv sp st.ev
        obtain ⟨hA, hB⟩ := ih (seqptr_evput sp st.ev).2 hput_i
        exact ⟨by rw [hA, hput_t], hB⟩
      · simp only []
        by_cases heq : state_eq ost st.ev = true
        · rw [if_neg (by simp [heq] : ¬(!state_eq ost st.ev) = true)]
          obtain ⟨hA, hB⟩ := ih sp hinv
          exact ⟨hA, hB⟩
        · rw [if_pos (by simp [heq] : (!state_eq ost st.ev) = true)]
          have hput_t := evput_ticlen sp st.ev hinv
          have hput_i := evput_inv sp st.ev
          obtain ⟨hA, hB⟩ := ih (seqptr_evput sp st.ev).2 hput_i
          exact ⟨by rw [hA, hput_t], hB⟩
    · have hstep : timerm_restore_go (st :: rest) sp =
          ((timerm_restore_go rest sp).1, st :: (timerm_restore_go rest sp).2) := by
        simp only [timerm_restore_go, htag]
        rfl
      rw [hstep]
      exact ih sp hinv

/-- Unfolding of one iteration of the final copy loop of `track_timerm`. -/
lemma timerm_copy_succ (k : Nat) (sp : SeqPtr) (sl : List State) :
    timerm_copy (k + 1) sp sl =
      (let r := seqptr_ticdel sp UINT_MAX (some sl)
       let sp1 := seqptr_ticput r.2.1 r.1
       let sl1 := r.2.2.getD sl
       if !(seqptr_evavail sp1) then (sp1, sl1)
       else
         let rr := seqptr_evdel sp1 (some sl1)
         match rr.1 with
         | none => (rr.2.1, sl1)
         | some st =>
           let sp2 := rr.2.1
           let sl2 := statelist_replace (rr.2.2.getD sl1) { st with tag := 1 }
           let sp3 :=
             match statelist_lookup sp2.statelist st.ev with
             | none => (seqptr_evput sp2 st.ev).2
             | some ost =>
               if !(state_eq ost st.ev) then (seqptr_evput sp2 st.ev).2 else sp2
           timerm_copy k sp3 sl2) := rfl

/-- The final copy loop of `track_timerm` preserves the total tic length
and the cursor invariant. -/
lemma timerm_copy_run : ∀ (fuel : Nat) (sp : SeqPtr) (sl : List State),
    sp.delta ≤ sp.posdelta →
    (seqptr_ticlen (timerm_copy fuel sp sl).1 = seqptr_ticlen sp ∧
     (timerm_copy fuel sp sl).1.delta ≤ (timerm_copy fuel sp sl).1.posdelta) := by
  intro fuel
  induction fuel with
  | zero =>
    intro sp sl hinv
    exact ⟨rfl, hinv⟩
  | succ k ih =>
    intro sp sl hinv
    rw [timerm_copy_succ]
    simp only []
    set r := seqptr_ticdel sp UINT_MAX (some sl) with hrdef
    have hd_ticlen : seqptr_ticlen r.2.1 + r.1 = seqptr_ticlen sp :=
      (ticdel_ticlen sp UINT_MAX (some sl)).symm
    have hd_inv : r.2.1.delta ≤ r.2.1.posdelta := ticdel_inv sp UINT_MAX (some sl) hinv
    set sp1 := seqptr_ticput r.2.1 r.1 with hsp1
    have hp_ticlen : seqptr_ticlen sp1 = seqptr_ticlen sp := by
      by_cases h0 : r.1 = 0
      · rw [hsp1, h0]
        have : seqptr_ticput r.2.1 0 = r.2.1 := by
          rw [ticput_eq]
          simp
        rw [this]
        omega
      · have hfut : r.2.1.future ≠ [] := by
          have hmin : r.1 = min (sp.posdelta - sp.delta) UINT_MAX :=
            ticdel_fst sp UINT_MAX (some sl)
          have hlen : r.2.1.future.length = sp.future.length :=
            ticdel_len sp UINT_MAX (some sl)
          have hfut0 : sp.future ≠ [] := by
            apply posdelta_pos_future
            omega
          intro hc
          rw [hc] at hlen
          rcases hf : sp.future with _ | ⟨c, cs⟩
          · exact hfut0 hf
          · rw [hf] at hlen
            simp at hlen
        rw [hsp1, ticput_ticlen r.2.1 r.1 hfut]
        omega
    have hp_inv : sp1.delta ≤ sp1.posdelta := by
      by_cases h0 : r.1 = 0
      · rw [hsp1, h0]
        have : seqptr_ticput r.2.1 0 = r.2.1 := by
          rw [ticput_eq]
          simp
        rw [this]
        exact hd_inv
      · have hfut : r.2.1.future ≠ [] := by
          have hmin : r.1 = min (sp.posdelta - sp.delta) UINT_MAX :=
            ticdel_fst sp UINT_MAX (some sl)
          have hlen : r.2.1.future.length = sp.future.length :=
            ticdel_len sp UINT_MAX (some sl)
          have hfut0 : sp.future ≠ [] := by
            apply posdelta_pos_future
            omega
          intro hc
          rw [hc] at hlen
          rcases hf : sp.future with _ | ⟨c, cs⟩
          · exact hfut0 hf
          · rw [hf] at hlen
            simp at hlen
        rw [hsp1]
        exact ticput_inv r.2.1 r.1 hd_inv hfut
    by_cases hav : seqptr_evavail sp1 = true
    · rw [if_neg (by simp [hav] : ¬(!seqptr_evavail sp1) = true)]
      rcases hevdel : seqptr_evdel sp1 (some (r.2.2.getD sl)) with ⟨st?, sp₂, sl₂⟩
      have ht : seqptr_ticlen sp₂ = seqptr_ticlen sp1 := by
        have h := evdel_ticlen sp1 (some (r.2.2.getD sl))
        rw [hevdel] at h
        exact h
      have hi : sp₂.delta ≤ sp₂.posdelta := by
        have h := evdel_inv sp1 (some (r.2.2.getD sl)) hp_inv
        rw [hevdel] at h
        exact h
      cases st? with
      | none =>
        exact ⟨by rw [ht, hp_ticlen], hi⟩
      | some st =>
        simp only []
        rcases hlk : statelist_lookup sp₂.statelist st.ev with _ | ost
        · have hput_t := evput_ticlen sp₂ st.ev hi
          have hput_i := evput_inv sp₂ st.ev
          have hgen : ∀ sl' : List State,
              seqptr_ticlen (timerm_copy k (seqptr_evput sp₂ st.ev).2 sl').1 =
                seqptr_ticlen sp ∧
              (timerm_copy k (seqptr_evput sp₂ st.ev).2 sl').1.delta ≤
                (timerm_copy k (seqptr_evput sp₂ st.ev).2 sl').1.posdelta := by
            intro sl'
            obtain ⟨hA, hB⟩ := ih (seqptr_evput sp₂ st.ev).2 sl' hput_i
            exact ⟨by rw [hA, hput_t, ht, hp_ticlen], hB⟩
          exact hgen _
        · simp only []
          by_cases heq : state_eq ost st.ev = true
          · rw [if_neg (by simp [heq] : ¬(!state_eq ost st.ev) = true)]
            have hgen : ∀ sl' : List State,
                seqptr_ticlen (timerm_copy k sp₂ sl').1 = seqptr_ticlen sp ∧
                (timerm_copy k sp₂ sl').1.delta ≤ (timerm_copy k sp₂ sl').1.posdelta := by
              intro sl'
              obtain ⟨hA, hB⟩ := ih sp₂ sl' hi
              exact ⟨by rw [hA, ht, hp_ticlen], hB⟩
            exact hgen _
          · rw [if_pos (by simp [heq] : (!state_eq ost st.ev) = true)]
            have hput_t := evput_ticlen sp₂ st.ev hi
            have hput_i := evput_inv sp₂ st.ev
            have hgen : ∀ sl' : List State,
                seqptr_ticlen (timerm_copy k (seqptr_evput sp₂ st.ev).2 sl').1 =
                  seqptr_ticlen sp ∧
                (timerm_copy k (seqptr_evput sp₂ st.ev).2 sl').1.delta ≤
                  (timerm_copy k (seqptr_evput sp₂ st.ev).2 sl').1.posdelta := by
              intro sl'
              obtain ⟨hA, hB⟩ := ih (seqptr_evput sp₂ st.ev).2 sl' hput_i
              exact ⟨by rw [hA, hput_t, ht, hp_ticlen], hB⟩
            exact hgen _
    · rw [if_pos (by simp [hav] : (!seqptr_evavail sp1) = true)]
      exact ⟨hp_ticlen, hp_inv⟩

/-- Chaining the four loops of `track_timerm` after the cut position: the
final cursor's track is exactly `len` tics shorter than the starting one. -/
lemma timerm_tail_ticlen (sp : SeqPtr) (sl : List State) (len : Nat)
    (hinv : sp.delta ≤ sp.posdelta) (hwf : cellsWF sp.future = true)
    (hlen : len ≤ sp_rem sp) :
    ∀ A B C D,
      A = timerm_del (sp.future.length + 1) sp sl len →
      B = timerm_nexttic (A.1.future.length + 1) A.1 A.2.1 →
      C = timerm_restore_go B.2 B.1 →
      D = timerm_copy (C.1.future.length + 1) C.1 C.2 →
      seqptr_ticlen D.1 + len = seqptr_ticlen sp := by
  intro A B C D hA hB hC hD
  obtain ⟨-, hA2, hA3, -⟩ :=
    timerm_del_run (sp.future.length + 1) sp sl len hinv hwf hlen (Nat.le_refl _)
  rw [← hA] at hA2 hA3
  obtain ⟨hB2, hB3⟩ := timerm_nexttic_run (A.1.future.length + 1) A.1 A.2.1 hA3
  rw [← hB] at hB2 hB3
  obtain ⟨hC2, hC3⟩ := timerm_restore_run B.2 B.1 hB3
  rw [← hC] at hC2 hC3
  obtain ⟨hD2, hD3⟩ := timerm_copy_run (C.1.future.length + 1) C.1 C.2 hC3
  rw [← hD] at hD2
  omega

/-- C6: `track_timerm t m a` returns `t` unchanged when measure `m` lies
past the end of the track (the `seqptr_skipmeasure` residual is nonzero,
matching the code's `if (len != 0) return;` guard); otherwise the resulting
track is shorter than `t` by exactly the tic span of the `a` measures
starting at measure `m`. -/
theorem C6_timerm_guard_and_span (t : Track) (m a : Nat)
    (hwf : track_wf t = true) :
    (track_measure_residual t m ≠ 0 → track_timerm t m a = t) ∧
    (track_measure_residual t m = 0 →
      trackTicLen (track_timerm t m a) + track_timerm_span t m a = trackTicLen t) := by
  constructor
  · intro hres
    have h0 : (seqptr_skipmeasure (seqptr_init t) m).1 ≠ 0 := hres
    unfold track_timerm
    simp only []
    rw [if_pos (by simp [bne_iff_ne]; exact h0)]
  · intro hres
    have h0 : (seqptr_skipmeasure (seqptr_init t) m).1 = 0 := hres
    unfold track_timerm track_timerm_span
    simp only []
    rw [if_neg (by simp [h0])]
    set sp0 := seqptr_init t with hsp0
    set tic := (seqptr_skipmeasure sp0 m).2.tic with htic
    set len := (seqptr_skipmeasure (seqptr_skipmeasure sp0 m).2 a).2.tic - tic with hlendef
    set sp2 := (seqptr_skip sp0 tic).2 with hsp2
    set sl0 := (statelist_dup sp2.statelist).map (fun st => { st with tag := 1 }) with hsl0
    have hinv0 : sp0.delta ≤ sp0.posdelta := by
      rw [hsp0]
      exact Nat.zero_le _
    have hwf0 : cellsWF sp0.future = true := by
      rw [hsp0]
      exact hwf
    have htic0 : sp0.tic = 0 := by
      rw [hsp0]
      rfl
    have hrem0 : sp_rem sp0 = trackTicLen t := by
      rw [hsp0]
      simp [sp_rem, seqptr_init, trackTicLen]
    have hticlen0 : seqptr_ticlen sp0 = trackTicLen t := by
      rw [hsp0]
      simp [seqptr_ticlen, spCells, seqptr_init, trackTicLen]
    obtain ⟨hm1, hm2, hm3, hm4, hm5, hm6⟩ := skipmeasure_run m sp0 hinv0 hwf0
    obtain ⟨ha1, ha2, ha3, ha4, ha5, ha6⟩ :=
      skipmeasure_run a (seqptr_skipmeasure sp0 m).2 hm4 hm5
    have hlen_le : len ≤ sp_rem (seqptr_skipmeasure sp0 m).2 := by omega
    obtain ⟨hs1, hs2, hs3, hs4, hs5, hs6, hs7⟩ :=
      skip_go_run (sp0.future.length + tic + 1) sp0 tic hinv0 hwf0 (Nat.le_refl _)
    have hsp2g : sp2 = (seqptr_skip_go (sp0.future.length + tic + 1) sp0 tic).2 := hsp2
    rw [← hsp2g] at hs1 hs3 hs4 hs5 hs6
    have hticlen2 : seqptr_ticlen sp2 = trackTicLen t := by
      have hh : seqptr_ticlen sp2 = seqptr_ticlen sp0 := by
        unfold seqptr_ticlen
        rw [hs1]
      rw [hh, hticlen0]
    have hlen2 : len ≤ sp_rem sp2 := by omega
    have hkey := timerm_tail_ticlen sp2 sl0 len hs5 hs6 hlen2 _ _ _ _ rfl rfl rfl rfl
    rw [seqptr_track_ticlen]
    omega

/-- Witness: on a concrete track with a time signature, the guard fires at
an out-of-range measure and the span equation holds at an in-range one. -/
theorem C6_timerm_guard_and_span_witness :
    track_timerm exTrackMeas 100 1 = exTrackMeas ∧
    trackTicLen (track_timerm exTrackMeas 1 1) + track_timerm_span exTrackMeas 1 1 =
      trackTicLen exTrackMeas := by
  constructor
  · exact (C6_timerm_guard_and_span exTrackMeas 100 1 (by decide)).1 (by decide)
  · exact (C6_timerm_guard_and_span exTrackMeas 1 1 (by decide)).2 (by decide)

/-- A non-NULL event belongs to its own frame. -/
lemma sameFrame_refl (e : Ev) (he : e.cmd ≠ .evnull) : ev_sameFrame e e = true := by
  unfold ev_sameFrame ev_frameKey
  rcases e with ⟨cmd, ch, b0, b1⟩
  cases cmd <;> simp_all

/-- `state_update1` stores the new event. -/
lemma state_update1_ev (st : State) (e : Ev) : (state_update1 st e).ev = e := by
  unfold state_update1
  simp only []
  split
  · split
    · rfl
    · rfl
  · split
    · rfl
    · rfl

/-- `state_update1` never touches the scratch `tag`. -/
lemma state_update1_tag (st : State) (e : Ev) : (state_update1 st e).tag = st.tag := by
  unfold state_update1
  simp only []
  split
  · split
    · rfl
    · rfl
  · split
    · rfl
    · rfl

/-- `statelist_update` returns a state carrying the updating event. -/
lemma statelist_update_ev : ∀ (l : List State) (e : Ev),
    (statelist_update l e).1.ev = e := by
  intro l
  induction l with
  | nil =>
    intro e
    rfl
  | cons st rest ih =>
    intro e
    unfold statelist_update
    by_cases hsf : ev_sameFrame st.ev e = true
    · simp [hsf, state_update1_ev]
    · simp [hsf, ih]

/-- When every state in the list is tagged live and the update neither
opens a frame nor produces a bogus state, the updated state keeps tag 1. -/
lemma statelist_update_tag : ∀ (l : List State) (e : Ev),
    (∀ st ∈ l, st.tag = 1) →
    ((statelist_update l e).1.phase &&& EV_PHASE_FIRST) = 0 →
    (statelist_update l e).1.fBogus = false →
    (statelist_update l e).1.tag = 1 := by
  intro l
  induction l with
  | nil =>
    intro e _ hph hb
    exfalso
    unfold statelist_update at hph hb
    simp only [] at hph hb
    rw [hph] at hb
    simp at hb
  | cons st rest ih =>
    intro e ht hph hb
    unfold statelist_update at hph hb ⊢
    by_cases hsf : ev_sameFrame st.ev e = true
    · simp only [hsf, if_true]
      rw [state_update1_tag]
      exact ht st (by simp)
    · simp only [hsf, if_false, Bool.false_eq_true]
      simp only [hsf, if_false, Bool.false_eq_true] at hph hb
      exact ih e (fun s hs => ht s (by simp [hs])) hph hb

/-- `statelist_replace` with a tagged state keeps every tag live. -/
lemma tag1_replace (l : List State) (st' : State)
    (ht : ∀ st ∈ l, st.tag = 1) (ht' : st'.tag = 1) :
    ∀ st ∈ statelist_replace l st', st.tag = 1 := by
  intro st hst
  unfold statelist_replace at hst
  rw [List.mem_map] at hst
  obtain ⟨s, hs, heq⟩ := hst
  by_cases hsf : ev_sameFrame s.ev st'.ev = true
  · rw [← heq]
    simp [hsf, ht']
  · rw [← heq]
    simp [hsf]
    exact ht s hs

/-- Writing a tagged state over its own frame after an update keeps every
tag live. -/
lemma tag1_update_replace : ∀ (l : List State) (e : Ev) (st' : State),
    (∀ st ∈ l, st.tag = 1) → st'.tag = 1 →
    ev_sameFrame (statelist_update l e).1.ev st'.ev = true →
    ∀ st ∈ statelist_replace (statelist_update l e).2 st', st.tag = 1 := by
  intro l
  induction l with
  | nil =>
    intro e st' _ ht' hsf st hst
    unfold statelist_update at hsf hst
    simp only [] at hsf hst
    unfold statelist_replace at hst
    simp only [List.map] at hst
    rw [hsf] at hst
    simp at hst
    rw [hst, ht']
  | cons s0 rest ih =>
    intro e st' ht ht' hsf st hst
    unfold statelist_update at hsf hst
    by_cases hs0 : ev_sameFrame s0.ev e = true
    · simp only [hs0, if_true] at hsf hst
      unfold statelist_replace at hst
      simp only [List.map] at hst
      rw [hsf] at hst
      simp only [if_true] at hst
      rcases List.mem_cons.mp hst with h | h
      · rw [h, ht']
      · exact tag1_replace rest st' (fun s hs => ht s (by simp [hs])) ht' st
          (by simpa [statelist_replace] using h)
    · simp only [hs0, if_false, Bool.false_eq_true] at hsf hst
      unfold statelist_replace at hst
      simp only [List.map] at hst
      rcases List.mem_cons.mp hst with h | h
      · by_cases hq : ev_sameFrame s0.ev st'.ev = true
        · rw [h]
          simp [hq, ht']
        · rw [h]
          simp [hq]
          exact ht s0 (by simp)
      · exact ih e st' (fun s hs => ht s (by simp [hs])) ht' hsf st
          (by simpa [statelist_replace] using h)

/-- `statelist_outdate` keeps every tag live. -/
lemma tag1_outdate (l : List State) (ht : ∀ st ∈ l, st.tag = 1) :
    ∀ st ∈ statelist_outdate l, st.tag = 1 := by
  intro st hst
  unfold statelist_outdate at hst
  rw [List.mem_map] at hst
  obtain ⟨s, hs, heq⟩ := hst
  rw [List.mem_filter] at hs
  rw [← heq]
  show s.tag = 1
  exact ht s hs.1

/-- One scan step over an event cell with no gap before it. -/
lemma scanSteps_event (org : List State) (c : Cell) (tl : List Cell)
    (hd : c.delta = 0) (he : c.ev.cmd ≠ .evnull)
    (hok : ((statelist_update org c.ev).1.fBogus ||
            (statelist_update org c.ev).1.fNested) = false) :
    scanSteps org (c :: tl) =
      scanSteps
        (statelist_replace (statelist_update org c.ev).2
          (if ((statelist_update org c.ev).1.phase &&& EV_PHASE_FIRST) != 0 then
             { (statelist_update org c.ev).1 with tag := 1 }
           else (statelist_update org c.ev).1)) tl := by
  simp only [scanSteps]
  simp [hd, he, hok]

/-- A successful scan of an event cell implies the update was clean. -/
lemma scanSteps_event_ok (org : List State) (c : Cell) (tl : List Cell)
    (hd : c.delta = 0) (he : c.ev.cmd ≠ .evnull)
    (H : (scanSteps org (c :: tl)).2 = true) :
    ((statelist_update org c.ev).1.fBogus ||
     (statelist_update org c.ev).1.fNested) = false := by
  by_contra hc
  rw [Bool.not_eq_false] at hc
  simp only [scanSteps] at H
  simp [hd, he, hc] at H

/-- The scan over a cell with a gap first outdates the state list. -/
lemma scanSteps_outdate (org : List State) (c : Cell) (tl : List Cell)
    (h : 0 < c.delta) :
    scanSteps org (c :: tl) =
      scanSteps (statelist_outdate org) ({ c with delta := 0 } :: tl) := by
  simp only [scanSteps]
  simp [h]

/-- At the start of a track the whole cell list remains to be scanned. -/
lemma remCells_init (t : Track) : remCells (seqptr_init t) = t.cells := by
  unfold remCells seqptr_init
  rcases h : t.cells with _ | ⟨c, rest⟩
  · rfl
  · rcases c with ⟨i, d, e⟩
    simp

/-- `chompCells` is the identity on a cell list with no trailing blank. -/
lemma chompCells_id : ∀ (l : List Cell), cellsTrailing l = 0 → chompCells l = l := by
  intro l
  induction l with
  | nil =>
    intro _
    rfl
  | cons c rest ih =>
    intro h
    cases rest with
    | nil =>
      have hc : c.delta = 0 := h
      unfold chompCells
      rcases c with ⟨i, d, e⟩
      simp at hc
      simp [hc]
    | cons c2 r2 =>
      have hh : cellsTrailing (c2 :: r2) = 0 := h
      unfold chompCells
      rw [ih hh]

/-- Two cell lists with the same observable data have the same trailing
blank. -/
lemma cellsTrailing_congr : ∀ (l l' : List Cell), cellsData l = cellsData l' →
    cellsTrailing l = cellsTrailing l' := by
  intro l
  induction l with
  | nil =>
    intro l' h
    cases l' with
    | nil => rfl
    | cons c r => simp [cellsData] at h
  | cons c rest ih =>
    intro l' h
    cases l' with
    | nil => simp [cellsData] at h
    | cons c' rest' =>
      simp [cellsData] at h
      obtain ⟨⟨hd, he⟩, ht⟩ := h
      cases rest with
      | nil =>
        cases rest' with
        | nil =>
          show c.delta = c'.delta
          exact hd
        | cons a b => simp at ht
      | cons c2 r2 =>
        cases rest' with
        | nil => simp at ht
        | cons c2' r2' =>
          show cellsTrailing (c2 :: r2) = cellsTrailing (c2' :: r2')
          exact ih (c2' :: r2') (by simpa [cellsData] using ht)

/-- Reading an event from the empty src track does nothing: its second
inner loop is the identity. -/
lemma merge_loop2_empty (pd : SeqPtr) (org : List State) :
    merge_loop2 ((seqptr_init track_init).future.length + 1)
      (seqptr_init track_init) pd org = (seqptr_init track_init, pd, org) := rfl

/-- Unfolding of one iteration of the first inner loop of `track_merge`. -/
lemma merge_loop1_succ (k : Nat) (pd : SeqPtr) (sl2 org : List State) :
    merge_loop1 (k + 1) pd sl2 org =
      (match (seqptr_evdel pd (some org)).1 with
       | none => ((seqptr_evdel pd (some org)).2.1, org)
       | some s1 =>
         merge_loop1 k
           (seqptr_evmerge1 (seqptr_evdel pd (some org)).2.1 s1
             (statelist_lookup sl2 s1.ev)).1
           sl2
           (statelist_replace ((seqptr_evdel pd (some org)).2.2.getD org)
             (seqptr_evmerge1 (seqptr_evdel pd (some org)).2.1 s1
               (statelist_lookup sl2 s1.ev)).2)) := rfl

/-- Unfolding of one iteration of the outer loop of `track_merge`. -/
lemma merge_outer_succ (k : Nat) (pd p2 : SeqPtr) (org : List State) :
    merge_outer (k + 1) pd p2 org =
      (let a := merge_loop1 (pd.future.length + 1) pd p2.statelist org
       let b := merge_loop2 (p2.future.length + 1) p2 a.1 a.2
       let delta1 := b.2.1.posdelta - b.2.1.delta
       let delta2 := b.1.posdelta - b.1.delta
       if delta1 > 0 then
         let deltad := if delta2 > 0 && delta2 < delta1 then delta2 else delta1
         let r := seqptr_ticdel b.2.1 deltad (some b.2.2)
         merge_outer k (seqptr_ticput r.2.1 deltad) (seqptr_ticskip b.1 deltad).2
           (r.2.2.getD b.2.2)
       else if delta2 > 0 then
         let deltad := delta2
         let r := seqptr_ticdel b.2.1 deltad (some b.2.2)
         merge_outer k (seqptr_ticput r.2.1 deltad) (seqptr_ticskip b.1 deltad).2
           (r.2.2.getD b.2.2)
       else
         (b.2.1, b.1, b.2.2)) := rfl

/-- Merging a clean, live-tagged dst event against the empty src side
re-emits it unchanged (with the frame-opening tag write). -/
lemma evmerge1_emit (pd : SeqPtr) (s1 : State)
    (hok : (s1.fBogus || s1.fNested) = false)
    (htag : (s1.phase &&& EV_PHASE_FIRST) = 0 → s1.tag = 1) :
    seqptr_evmerge1 pd s1 none =
      ((seqptr_evput pd s1.ev).2,
       if (s1.phase &&& EV_PHASE_FIRST) != 0 then { s1 with tag := 1 } else s1) := by
  unfold seqptr_evmerge1
  rw [hok]
  simp only [Bool.false_eq_true, if_false]
  by_cases hf : (s1.phase &&& EV_PHASE_FIRST) = 0
  · simp [hf, htag hf]
  · simp [hf]

/-- The first inner loop of `track_merge` against the empty src side:
every available dst event is deleted and immediately re-emitted, so the
cursor's observable cells are unchanged; the erase list tracks the scan of
the remaining cells and stays fully live-tagged. -/
lemma merge_loop1_run : ∀ (fuel : Nat) (pd : SeqPtr) (org : List State),
    fuel ≥ pd.future.length + 1 →
    cellsWF pd.future = true →
    pd.delta ≤ pd.posdelta →
    (∀ st ∈ org, st.tag = 1) →
    (scanSteps org (remCells pd)).2 = true →
    (cellsData (spCells (merge_loop1 fuel pd [] org).1) = cellsData (spCells pd) ∧
     seqptr_evavail (merge_loop1 fuel pd [] org).1 = false ∧
     (merge_loop1 fuel pd [] org).1.delta ≤ (merge_loop1 fuel pd [] org).1.posdelta ∧
     cellsWF (merge_loop1 fuel pd [] org).1.future = true ∧
     (∀ st ∈ (merge_loop1 fuel pd [] org).2, st.tag = 1) ∧
     scanSteps (merge_loop1 fuel pd [] org).2 (remCells (merge_loop1 fuel pd [] org).1) =
       scanSteps org (remCells pd) ∧
     (merge_loop1 fuel pd [] org).1.future.length +
         (cellsTicLen (merge_loop1 fuel pd [] org).1.future -
           (merge_loop1 fuel pd [] org).1.delta) ≤
       pd.future.length + (cellsTicLen pd.future - pd.delta)) := by
  intro fuel
  induction fuel with
  | zero =>
    intro pd org hfuel _ _ _ _
    exact absurd hfuel (by omega)
  | succ k ih =>
    intro pd org hfuel hwf hinv htags hscan
    by_cases hav : seqptr_evavail pd = true
    · obtain ⟨hdp, hne⟩ : pd.posdelta = pd.delta ∧ pd.posev.cmd ≠ .evnull := by
        simpa [seqptr_evavail] using hav
      rcases hfut : pd.future with _ | ⟨c, rest0⟩
      · exfalso
        simp [SeqPtr.posev, hfut] at hne
      rcases rest0 with _ | ⟨next, rest⟩
      · exfalso
        have hcs : c.ev.cmd = .evnull := by
          have hh := hwf
          rw [hfut] at hh
          simpa [cellsWF] using hh
        simp [SeqPtr.posev, hfut, hcs] at hne
      have hce : c.ev.cmd ≠ .evnull := by
        simpa [SeqPtr.posev, hfut] using hne
      have hcd : pd.delta = c.delta := by
        have hx : pd.posdelta = c.delta := by simp [SeqPtr.posdelta, hfut]
        omega
      have hsub : c.delta - pd.delta = 0 := by omega
      have hrem : remCells pd = { c with delta := 0 } :: next :: rest := by
        simp [remCells, hfut, hsub]
      have hscan2 : (scanSteps org ({ c with delta := 0 } :: next :: rest)).2 = true := by
        rw [← hrem]
        exact hscan
      have hok : ((statelist_update org c.ev).1.fBogus ||
                  (statelist_update org c.ev).1.fNested) = false :=
        scanSteps_event_ok org { c with delta := 0 } (next :: rest) rfl hce hscan2
      have hevdel := evdel_step pd org c next rest hfut hcd hce
      set u := statelist_update org c.ev with hu
      set pd1 : SeqPtr :=
        { pd with future := { next with delta := next.delta + c.delta } :: rest } with hpd1
      have huev : u.1.ev = c.ev := statelist_update_ev org c.ev
      have hbog : u.1.fBogus = false := by
        cases hb : u.1.fBogus
        · rfl
        · rw [hb] at hok
          simp at hok
      have htagf : (u.1.phase &&& EV_PHASE_FIRST) = 0 → u.1.tag = 1 :=
        fun h => statelist_update_tag org c.ev htags h hbog
      have hmerge := evmerge1_emit pd1 u.1 hok htagf
      nth_rewrite 1 [huev] at hmerge
      set st' := if (u.1.phase &&& EV_PHASE_FIRST) != 0 then { u.1 with tag := 1 }
                 else u.1 with hst'
      have hsttag : st'.tag = 1 := by
        rw [hst']
        by_cases hf : (u.1.phase &&& EV_PHASE_FIRST) = 0
        · simp [hf]
          exact htagf hf
        · simp [hf]
      have hstev : st'.ev = u.1.ev := by
        rw [hst']
        split
        · rfl
        · rfl
      have hstep := scanSteps_event org { c with delta := 0 } (next :: rest) rfl hce hok
      simp only [] at hstep
      rw [← hst'] at hstep
      obtain ⟨slx, hput⟩ := evput_step pd1 c.ev hce
      have h_fut : pd1.future = { next with delta := next.delta + c.delta } :: rest := by
        rw [hpd1]
      have h_delta : pd1.delta = pd.delta := by rw [hpd1]
      have h_past : pd1.past = pd.past := by rw [hpd1]
      have h_tic : pd1.tic = pd.tic := by rw [hpd1]
      have h_nid : pd1.nextId = pd.nextId := by rw [hpd1]
      rw [h_fut] at hput
      simp only [] at hput
      rw [h_delta, h_past, h_tic, h_nid] at hput
      rw [show next.delta + c.delta - pd.delta = next.delta from by omega] at hput
      have hput2 : (seqptr_evput pd1 c.ev).2 =
          { past := { id := pd.nextId, delta := pd.delta, ev := c.ev } :: pd.past,
            future := next :: rest, delta := 0, tic := pd.tic,
            statelist := slx, nextId := pd.nextId + 1 } := hput
      rw [merge_loop1_succ, hevdel]
      simp only []
      have hlk : statelist_lookup [] u.1.ev = none := rfl
      rw [hlk, hmerge]
      simp only [Option.getD_some]
      rw [hput2]
      set S : SeqPtr :=
        { past := { id := pd.nextId, delta := pd.delta, ev := c.ev } :: pd.past,
          future := next :: rest, delta := 0, tic := pd.tic,
          statelist := slx, nextId := pd.nextId + 1 } with hS
      have hSf : S.future = next :: rest := by rw [hS]
      have hremS : remCells S = next :: rest := rfl
      have h1 : k ≥ S.future.length + 1 := by
        have hpl : pd.future.length = rest.length + 2 := by
          rw [hfut]
          rfl
        have hSl : S.future.length = rest.length + 1 := by rw [hSf]; rfl
        omega
      have h2 : cellsWF S.future = true := by
        rw [hSf]
        have hh := hwf
        rw [hfut] at hh
        have hh2 : (c.ev.cmd != Frame.EvCmd.evnull && cellsWF (next :: rest)) = true := hh
        exact (Bool.and_eq_true _ _ |>.mp hh2).2
      have h3 : S.delta ≤ S.posdelta := by
        have : S.delta = 0 := by rw [hS]
        omega
      have h4 : ∀ st ∈ statelist_replace u.2 st', st.tag = 1 := by
        apply tag1_update_replace org c.ev st' htags hsttag
        rw [hstev, huev]
        exact sameFrame_refl c.ev hce
      have h5 : (scanSteps (statelist_replace u.2 st') (remCells S)).2 = true := by
        rw [hremS, ← hstep]
        exact hscan2
      obtain ⟨i1, i2, i3, i4, i5, i6, i7⟩ := ih S (statelist_replace u.2 st') h1 h2 h3 h4 h5
      have hcells : cellsData (spCells S) = cellsData (spCells pd) := by
        rw [hS]
        simp [spCells, cellsData, hfut, hcd]
      have hscan_eq : scanSteps (statelist_replace u.2 st') (remCells S) =
          scanSteps org (remCells pd) := by
        rw [hremS, ← hstep, ← hrem]
      have hSt : cellsTicLen S.future = next.delta + cellsTicLen rest := by
        rw [hSf, cellsTicLen_cons]
      have hSd : S.delta = 0 := by rw [hS]
      have hSl : S.future.length = rest.length + 1 := by rw [hSf]; rfl
      have hpl : pd.future.length = rest.length + 2 := by
        rw [hfut]
        rfl
      have hpt : cellsTicLen pd.future = c.delta + (next.delta + cellsTicLen rest) := by
        rw [hfut, cellsTicLen_cons, cellsTicLen_cons]
      refine ⟨i1.trans hcells, i2, i3, i4, i5, i6.trans hscan_eq, ?_⟩
      have hql : (c :: next :: rest).length = rest.length + 2 := rfl
      have hqt : cellsTicLen (c :: next :: rest) =
          c.delta + (next.delta + cellsTicLen rest) := by
        rw [cellsTicLen_cons, cellsTicLen_cons]
      omega
    · have hav' : seqptr_evavail pd = false := by
        simpa using hav
      have hevdel := evdel_stuck pd (some org) hav'
      rw [merge_loop1_succ, hevdel]
      simp only []
      exact ⟨trivial, hav', hinv, hwf, htags, trivial, Nat.le_refl _⟩

/-- The outer loop of `track_merge` against the empty src track leaves the
dst track's observable cells unchanged. -/
lemma merge_outer_run : ∀ (fuel : Nat) (pd : SeqPtr) (org : List State),
    fuel ≥ pd.future.length + (cellsTicLen pd.future - pd.delta) + 1 →
    cellsWF pd.future = true →
    pd.delta ≤ pd.posdelta →
    (∀ st ∈ org, st.tag = 1) →
    (scanSteps org (remCells pd)).2 = true →
    cellsData (spCells (merge_outer fuel pd (seqptr_init track_init) org).1) =
      cellsData (spCells pd) := by
  intro fuel
  induction fuel with
  | zero =>
    intro pd org hfuel _ _ _ _
    exact absurd hfuel (by omega)
  | succ k ih =>
    intro pd org hfuel hwf hinv htags hscan
    rw [merge_outer_succ]
    have hst0 : (seqptr_init track_init).statelist = [] := rfl
    rw [hst0]
    set A := merge_loop1 (pd.future.length + 1) pd [] org with hA
    obtain ⟨a1, a2, a3, a4, a5, a6, a7⟩ :=
      merge_loop1_run (pd.future.length + 1) pd org (Nat.le_refl _) hwf hinv htags hscan
    rw [← hA] at a1 a2 a3 a4 a5 a6 a7
    simp only []
    rw [merge_loop2_empty]
    simp only []
    have hd2 : (seqptr_init track_init).posdelta - (seqptr_init track_init).delta = 0 :=
      rfl
    rw [hd2]
    by_cases h1 : A.1.posdelta - A.1.delta > 0
    · rw [if_pos h1]
      have hdd : (if ((0 : Nat) > 0 && (0 : Nat) < A.1.posdelta - A.1.delta) then (0 : Nat)
          else A.1.posdelta - A.1.delta) = A.1.posdelta - A.1.delta := by
        simp
      rw [hdd]
      have hfne : A.1.future ≠ [] := by
        apply posdelta_pos_future
        omega
      rcases hfA : A.1.future with _ | ⟨cf, restf⟩
      · exact absurd hfA hfne
      have hpda : A.1.posdelta = cf.delta := by
        simp [SeqPtr.posdelta, hfA]
      have hrdel : seqptr_ticdel A.1 (A.1.posdelta - A.1.delta) (some A.2) =
          (A.1.posdelta - A.1.delta,
           { A.1 with future :=
               { cf with delta := cf.delta - (A.1.posdelta - A.1.delta) } :: restf },
           some (statelist_outdate A.2)) := by
        rw [ticdel_eq, hfA]
        simp [Nat.min_self, h1]
      rw [hrdel]
      simp only []
      have harith1 : cf.delta - (A.1.posdelta - A.1.delta) + (A.1.posdelta - A.1.delta) =
          cf.delta := by
        omega
      have hput2 : seqptr_ticput
          { A.1 with future :=
              { cf with delta := cf.delta - (A.1.posdelta - A.1.delta) } :: restf }
          (A.1.posdelta - A.1.delta) =
          { A.1 with
            future := cf :: restf,
            delta := A.1.delta + (A.1.posdelta - A.1.delta),
            tic := A.1.tic + (A.1.posdelta - A.1.delta),
            statelist := statelist_outdate A.1.statelist } := by
        rw [ticput_eq]
        rw [if_pos h1]
        simp only []
        rw [harith1]
      rw [hput2]
      have hskip : (seqptr_ticskip (seqptr_init track_init)
          (A.1.posdelta - A.1.delta)).2 = seqptr_init track_init := by
        simp [seqptr_ticskip, seqptr_init, track_init, SeqPtr.posdelta]
      rw [hskip]
      simp only [Option.getD_some]
      set P : SeqPtr :=
        { A.1 with
          future := cf :: restf,
          delta := A.1.delta + (A.1.posdelta - A.1.delta),
          tic := A.1.tic + (A.1.posdelta - A.1.delta),
          statelist := statelist_outdate A.1.statelist } with hP
      have hPf : P.future = cf :: restf := by rw [hP]
      have hPd : P.delta = A.1.delta + (A.1.posdelta - A.1.delta) := by rw [hP]
      have hTgeq : A.1.posdelta ≤ cellsTicLen A.1.future := posdelta_le_ticlen A.1
      have hTA : cellsTicLen A.1.future = cf.delta + cellsTicLen restf := by
        rw [hfA, cellsTicLen_cons]
      have hlenA : A.1.future.length = restf.length + 1 := by
        rw [hfA]
        rfl
      have hfuel2 : k ≥ P.future.length + (cellsTicLen P.future - P.delta) + 1 := by
        have hPl : P.future.length = restf.length + 1 := by rw [hPf]; rfl
        have hPt : cellsTicLen P.future = cf.delta + cellsTicLen restf := by
          rw [hPf, cellsTicLen_cons]
        omega
      have hwf2 : cellsWF P.future = true := by
        rw [hPf, ← hfA]
        exact a4
      have hinv2 : P.delta ≤ P.posdelta := by
        have hPp : P.posdelta = cf.delta := by
          simp [SeqPtr.posdelta, hPf]
        omega
      have htags2 : ∀ st ∈ statelist_outdate A.2, st.tag = 1 := tag1_outdate A.2 a5
      have hremA : remCells A.1 =
          { cf with delta := cf.delta - A.1.delta } :: restf := by
        simp [remCells, hfA]
      have hremP : remCells P = { cf with delta := 0 } :: restf := by
        have hz : cf.delta - P.delta = 0 := by omega
        simp [remCells, hPf, hz]
      have hgap : (0 : Nat) < ({ cf with delta := cf.delta - A.1.delta } : Cell).delta := by
        simp
        omega
      have hsc0 := scanSteps_outdate A.2 { cf with delta := cf.delta - A.1.delta } restf hgap
      have hsc1 : scanSteps A.2 (remCells A.1) =
          scanSteps (statelist_outdate A.2) ({ cf with delta := 0 } :: restf) := by
        rw [hremA, hsc0]
      have hscan2 : (scanSteps (statelist_outdate A.2) (remCells P)).2 = true := by
        rw [hremP, ← hsc1, a6]
        exact hscan
      have hmain := ih P (statelist_outdate A.2) hfuel2 hwf2 hinv2 htags2 hscan2
      rw [hmain]
      have hPcells : spCells P = spCells A.1 := by
        simp [spCells, hP, hfA]
      rw [hPcells]
      exact a1
    · rw [if_neg h1]
      have hz : ¬((0 : Nat) > 0) := by omega
      rw [if_neg hz]
      simp only []
      exact a1

/-- `track_merge` against the empty track, at the cell-data level: the
result is the chomped input. -/
lemma track_merge_empty_data (t : Track) (fuel : Nat)
    (hfuel : fuel ≥ t.cells.length + cellsTicLen t.cells + 1)
    (hwf : track_wf t = true) (hcons : track_consistent t = true)
    (htrail : cellsTrailing t.cells = 0) :
    track_data (track_chomp (seqptr_track
      (merge_outer fuel (seqptr_init t) (seqptr_init track_init) []).1)) =
      track_data t := by
  have h1 : fuel ≥ (seqptr_init t).future.length +
      (cellsTicLen (seqptr_init t).future - (seqptr_init t).delta) + 1 := by
    have hA : (seqptr_init t).future.length = t.cells.length := rfl
    have hB : cellsTicLen (seqptr_init t).future = cellsTicLen t.cells := rfl
    have hC : (seqptr_init t).delta = 0 := rfl
    omega
  have h2 : cellsWF (seqptr_init t).future = true := hwf
  have h3 : (seqptr_init t).delta ≤ (seqptr_init t).posdelta := Nat.zero_le _
  have h4 : ∀ st ∈ ([] : List State), st.tag = 1 := by
    intro st hst
    exact absurd hst (List.not_mem_nil st)
  have h5 : (scanSteps [] (remCells (seqptr_init t))).2 = true := by
    rw [remCells_init]
    exact hcons
  have hrun := merge_outer_run fuel (seqptr_init t) [] h1 h2 h3 h4 h5
  have hdata : cellsData
      (spCells (merge_outer fuel (seqptr_init t) (seqptr_init track_init) []).1) =
      cellsData t.cells := by
    rw [hrun]
    rfl
  have htr : cellsTrailing
      (spCells (merge_outer fuel (seqptr_init t) (seqptr_init track_init) []).1) = 0 := by
    rw [cellsTrailing_congr _ t.cells hdata]
    exact htrail
  have hch := chompCells_id _ htr
  show cellsData (chompCells
      (spCells (merge_outer fuel (seqptr_init t) (seqptr_init track_init) []).1)) =
    track_data t
  rw [hch, hdata]
  rfl

/-- C2 (amended): merging a track with the empty track leaves its
sequence of (delta, event) cells unchanged, provided the track is
structurally well-formed, its scan produces no BOGUS or NESTED state, and
the sentinel carries no trailing blank — without the last proviso the
final `track_chomp` erases the trailing blank (see the counterexample). -/
theorem C2_merge_empty_amended (t : Track)
    (hwf : track_wf t = true) (hcons : track_consistent t = true)
    (htrail : cellsTrailing t.cells = 0) :
    track_data (track_merge t track_init) = track_data t := by
  unfold track_merge
  simp only []
  apply track_merge_empty_data t _ ?_ hwf hcons htrail
  have hA : (seqptr_init t).future.length = t.cells.length := rfl
  have hB : cellsTicLen (seqptr_init t).future = cellsTicLen t.cells := rfl
  have hC : (seqptr_init track_init).future.length = 1 := rfl
  have hD : cellsTicLen (seqptr_init track_init).future = 0 := rfl
  omega

/-- Witness: a well-formed three-event track with no trailing blank is
left unchanged by merging with the empty track. -/
theorem C2_merge_empty_amended_witness :
    track_data (track_merge exTrackNice track_init) = track_data exTrackNice :=
  C2_merge_empty_amended exTrackNice (by decide) (by decide) (by decide)

end Frame
